import Mathlib

/-!
Verification of the CallPilot race-and-rank coordinator (backend/swarm.py,
backend/scoring.py, backend/models.py, backend/main.py).

The Python source is shallowly embedded: pure helpers become Lean functions,
the orchestrator's mutable state becomes an explicit `SwarmState`, and the
asyncio interleaving of internal workers, webhook deliveries and scheduled
`_evaluate_complete` tasks becomes a small-step transition system driven by a
list of scheduler actions (each action is one atomic block of Python code
between `await` points).  Machine floats are modelled by exact rationals.
-/

namespace CallPilot

/-- models.AgentStatus. -/
inductive AgentStatus where
  | idle
  | searching
  | calling
  | negotiating
  | booked
  | rejected
  | cancelled
deriving DecidableEq, Repr

/-- models.ProviderAgent.  Pydantic `Optional` fields are `Option`;
`rating`/`distance_miles` default to `None` when the catalog omits them. -/
structure ProviderAgent where
  id : String
  name : String
  status : AgentStatus
  slotTime : Option String
  rating : Option ℚ
  distance_miles : Option ℚ
deriving DecidableEq, Repr

/-- Python truthiness of an optional string: `None` and `""` are falsy. -/
def truthyStr (s : Option String) : Bool :=
  match s with
  | none => false
  | some t => t ≠ ""

/-- Python `x or y` on optional strings: `x` when truthy, else `y`. -/
def pyOrStr (a b : Option String) : Option String :=
  if truthyStr a then a else b

/-- Python `x or y` on optional numbers: `x` when truthy (non-None and
nonzero), else `y`.  Used by the shortlist-row construction. -/
def pyOrRat (a b : Option ℚ) : Option ℚ :=
  match a with
  | some x => if x = 0 then b else some x
  | none => b

/-- Python `int()` on the (digit-only) substrings produced by
`parse_time`'s splitting.  On a non-digit string Python raises; the model
totalizes that case to 0, which is never reached on the slot strings the
program produces. -/
def digitsToNat (s : List Char) : Nat :=
  if s ≠ [] ∧ s.all Char.isDigit then
    s.foldl (fun n c => n * 10 + (c.toNat - 48)) 0
  else 0

/-- Python `str.split()` (no argument): split on whitespace runs, dropping
empty fields. -/
def splitWs : List Char → List Char → List (List Char)
  | [], acc => if acc = [] then [] else [acc.reverse]
  | c :: cs, acc =>
    if c.isWhitespace then
      if acc = [] then splitWs cs [] else acc.reverse :: splitWs cs []
    else splitWs cs (c :: acc)

/-- Python `str.split(":")`: split on each colon, keeping empty fields. -/
def splitColon : List Char → List Char → List (List Char)
  | [], acc => [acc.reverse]
  | c :: cs, acc =>
    if c = ':' then acc.reverse :: splitColon cs []
    else splitColon cs (c :: acc)

/-- scoring.parse_time: parse "10:30 AM" to minutes since midnight.
Follows the source line by line: empty string is 0; strip, upper-case,
remove dots, split on whitespace; fewer than two fields is 0; parse
`h:m` (or a bare hour), then apply the 12-hour-clock adjustment. -/
def parse_time (t : String) : Nat :=
  if t = "" then 0
  else
    let cs := (((t.data.dropWhile Char.isWhitespace).reverse.dropWhile
        Char.isWhitespace).reverse.map Char.toUpper).filter (fun c => c ≠ '.')
    let parts := splitWs cs []
    if parts.length < 2 then 0
    else
      let time_part := parts.headD []
      let period := (parts.drop 1).headD []
      let pieces := splitColon time_part []
      let h0 := if 2 ≤ pieces.length then digitsToNat (pieces.headD [])
                else digitsToNat time_part
      let m := if 2 ≤ pieces.length then digitsToNat ((pieces.drop 1).headD [])
               else 0
      let h1 := if period = ['P', 'M'] ∧ h0 ≠ 12 then h0 + 12 else h0
      let h2 := if period = ['A', 'M'] ∧ h1 = 12 then 0 else h1
      h2 * 60 + m

/-- swarm.MIN_VALID_TIME: the 09:30 slot floor. -/
def MIN_VALID_TIME : String := "9:30 AM"

/-- Rounding to four decimal places, modelling Python's `round(s, 4)` on the
score (the source rounds a binary float half-to-even; on the exact rationals
of this model we use ordinary rounding — the two agree except on exact
half-way floats, which the score arithmetic does not produce). -/
def round4 (q : ℚ) : ℚ := (round (q * 10000) : ℤ) / 10000

/-- scoring.calculate_score.  `none` is a raised `TypeError`: the source
computes `rating_value if rating_value is not None else getattr(provider,
"rating", 4.5)`, and since the pydantic model always has a `rating`
attribute (possibly `None`), the `4.5` default is dead code — a `None`
rating flows into `rating / 5.0` and raises.  Likewise for distance. -/
def calculate_score (provider : ProviderAgent)
    (time_weight rating_weight distance_weight : ℚ)
    (rating_value distance_miles : Option ℚ) : Option ℚ :=
  let score : ℚ := 0
  let score :=
    match provider.slotTime with
    | none => score
    | some st =>
      if st = "" then score
      else
        let mins := parse_time st
        if 480 ≤ mins ∧ mins ≤ 1020 then
          score + time_weight * (1 - ((mins : ℚ) - 480) / 540)
        else score
  match rating_value.orElse (fun _ => provider.rating) with
  | none => none
  | some rating =>
    let score := score + rating_weight * (rating / 5)
    match distance_miles.orElse (fun _ => provider.distance_miles) with
    | none => none
    | some dist =>
      let score := score + distance_weight * max 0 (1 - dist / 10)
      some (min 1 score)

/-- The `status == BOOKED and slotTime` filter shared by
rank_booked_agents, rank_booked_agents_scored and get_results. -/
def isBookedWithSlot (a : ProviderAgent) : Bool :=
  a.status == AgentStatus.booked && truthyStr a.slotTime

/-- Python `min(xs, key=k)`: first element attaining the minimal key. -/
def pyMinBy (key : ProviderAgent → Nat) : List ProviderAgent → Option ProviderAgent
  | [] => none
  | x :: xs => some (xs.foldl (fun best y => if key y < key best then y else best) x)

/-- scoring.rank_booked_agents: earliest-slot booked agent (first on ties,
as Python's `min`), or `None` when no agent is booked with a slot. -/
def rank_booked_agents (agents : List ProviderAgent) : Option ProviderAgent :=
  let booked := agents.filter isBookedWithSlot
  pyMinBy (fun a => parse_time (a.slotTime.getD "")) booked

/-- Per-provider metadata snapshot `id -> {rating, distanceMiles}`
(swarm._provider_metadata), as an association list. -/
def dictGet {α : Type} (l : List (String × α)) (k : String) : Option α :=
  (l.find? (fun p => p.1 == k)).map (·.2)

/-- `meta.get(id, {}).get("rating")`. -/
def metaRating (m : List (String × Option ℚ × Option ℚ)) (id : String) : Option ℚ :=
  (dictGet m id).bind (·.1)

/-- `meta.get(id, {}).get("distanceMiles")`. -/
def metaDistance (m : List (String × Option ℚ × Option ℚ)) (id : String) : Option ℚ :=
  (dictGet m id).bind (·.2)

/-- scoring.rank_booked_agents_scored: booked agents paired with their
scores, stably sorted by descending score (Python's `sort(key=-score)` is
stable, so ties keep the original order; `mergeSort` is likewise stable).
`none` is the `TypeError` raised by `calculate_score` on a missing
rating/distance. -/
def rank_booked_agents_scored (agents : List ProviderAgent)
    (time_weight rating_weight distance_weight : ℚ)
    (provider_metadata : List (String × Option ℚ × Option ℚ)) :
    Option (List (ProviderAgent × ℚ)) :=
  let booked := agents.filter isBookedWithSlot
  if booked.isEmpty then some []
  else
    (booked.mapM (fun a =>
      (calculate_score a time_weight rating_weight distance_weight
        (metaRating provider_metadata a.id)
        (metaDistance provider_metadata a.id)).map (fun s => (a, s)))).map
      (fun scored => scored.mergeSort (fun x y => decide (y.2 ≤ x.2)))

/-- User preference-weight override (`SearchRequest.preference_weights`):
a dict with the three recognized keys, each possibly absent. -/
structure PreferenceWeights where
  earliest_availability : Option ℚ
  rating : Option ℚ
  distance : Option ℚ
deriving DecidableEq, Repr

/-- One row of `self.ranked_shortlist`, as built in `_evaluate_complete`. -/
structure ShortlistRow where
  rank : Nat
  agentId : String
  providerName : String
  slotTime : Option String
  score : ℚ
  rating : Option ℚ
  distanceMiles : Option ℚ
deriving DecidableEq, Repr

/-- The mutable per-race state of a `SwarmOrchestrator`, plus a `registered`
flag standing for this race's presence in the module-level `_swarms` /
`_agent_to_swarm` registries (inserted in `run`, removed in
`_cleanup_registry`). -/
structure SwarmState where
  agents : List ProviderAgent
  winner : Option ProviderAgent
  ranked_shortlist : List ShortlistRow
  completed : Bool
  completed_count : Nat
  provider_metadata : List (String × Option ℚ × Option ℚ)
  preference_weights : Option PreferenceWeights
  registered : Bool
deriving DecidableEq, Repr

/-- Events published through the broadcast callback.  The human-readable
`message` strings of the payloads are not modelled; each constructor keeps
the structured fields the properties are about. -/
inductive SwarmEvent where
  | start (agents : List ProviderAgent)
  | update (agentId : String) (status : AgentStatus) (slotTime : Option String)
  | agentBooked (agentId : String) (providerName : String) (slotTime : String)
  | raceCompleted (winnerId : Option String) (winnerSlot : Option String)
      (allAgents : List ProviderAgent) (rankedShortlist : List ShortlistRow)
deriving DecidableEq, Repr

/-- SwarmOrchestrator._update_agent: set the status of the first agent with
the given id, and its slot to `slot_time or a.slotTime`. -/
def update_agent : List ProviderAgent → String → AgentStatus → Option String →
    List ProviderAgent
  | [], _, _, _ => []
  | a :: rest, agent_id, status, slot_time =>
    if a.id == agent_id then
      { a with status := status, slotTime := pyOrStr slot_time a.slotTime } :: rest
    else a :: update_agent rest agent_id status slot_time

/-- Effective scoring weights: `weights = self._preference_weights or {}`
followed by `.get(key, default)` for the three recognized keys. -/
def effWeights (w : Option PreferenceWeights) : ℚ × ℚ × ℚ :=
  match w with
  | none => (0.5, 0.3, 0.2)
  | some w =>
    (w.earliest_availability.getD 0.5, w.rating.getD 0.3, w.distance.getD 0.2)

/-- The demotion condition of `_evaluate_complete`'s loop:
`a.id != winner.id and a.status == AgentStatus.BOOKED`. -/
def demoteCond (wId : String) (a : ProviderAgent) : Bool :=
  a.id != wId && a.status == AgentStatus.booked

/-- The `for a in self.agents` demotion loop: index `i` walks the (mutated
in place) agent list; each demoted agent is set to cancelled via
`_update_agent(a.id, CANCELLED, a.slotTime)` and a transition event is
emitted.  `fuel` is the list length at entry. -/
def demote_pass (wId : String) : Nat → Nat → List ProviderAgent →
    List SwarmEvent → List ProviderAgent × List SwarmEvent
  | _, 0, agents, evs => (agents, evs)
  | i, fuel + 1, agents, evs =>
    match agents[i]? with
    | none => (agents, evs)
    | some a =>
      if demoteCond wId a then
        demote_pass wId (i + 1) fuel
          (update_agent agents a.id AgentStatus.cancelled a.slotTime)
          (evs ++ [SwarmEvent.update a.id AgentStatus.cancelled a.slotTime])
      else demote_pass wId (i + 1) fuel agents evs

/-- One shortlist row, from `_evaluate_complete`'s comprehension (`i` is the
zero-based position): rank `i+1`, rounded score, and
`getattr(a, "rating") or metadata.get(a.id, {}).get("rating")` (Python `or`,
so a 0 rating also falls through to the metadata), similarly for distance. -/
def mkShortlistRow (meta : List (String × Option ℚ × Option ℚ))
    (i : Nat) (p : ProviderAgent × ℚ) : ShortlistRow :=
  { rank := i + 1
    agentId := p.1.id
    providerName := p.1.name
    slotTime := p.1.slotTime
    score := round4 p.2
    rating := pyOrRat p.1.rating (metaRating meta p.1.id)
    distanceMiles := pyOrRat p.1.distance_miles (metaDistance meta p.1.id) }

/-- The shortlist scoring call of `_evaluate_complete`: apply
`rank_booked_agents_scored` with the effective weights and the race's
metadata snapshot. -/
def arbitrationScored (s : SwarmState) : Option (List (ProviderAgent × ℚ)) :=
  let w3 := effWeights s.preference_weights
  rank_booked_agents_scored s.agents w3.1 w3.2.1 w3.2.2 s.provider_metadata

/-- The arbitration body of `_evaluate_complete`, everything after setting
the completion flag: compute the ranked shortlist, select the winner,
demote other secured candidates, emit the final event, deregister.  When
`rank_booked_agents_scored` raises (missing rating/distance, modelled as
`none`) the body aborts: nothing else changes and nothing is emitted,
matching the exception propagating out of the coroutine. -/
def arbitrationBody (s : SwarmState) : SwarmState × List SwarmEvent :=
  match arbitrationScored s with
  | none => (s, [])
  | some scored =>
    let shortlist := scored.enum.map
      (fun q => mkShortlistRow s.provider_metadata q.1 q.2)
    match rank_booked_agents s.agents with
    | some w =>
      let dp := demote_pass w.id 0 s.agents.length s.agents []
      ({ s with agents := dp.1, winner := some w, ranked_shortlist := shortlist,
                registered := false },
       dp.2 ++ [SwarmEvent.agentBooked w.id w.name (w.slotTime.getD "")] ++
         [SwarmEvent.raceCompleted (some w.id) w.slotTime dp.1 shortlist])
    | none =>
      ({ s with ranked_shortlist := shortlist, registered := false },
       [SwarmEvent.raceCompleted (s.winner.map (·.id))
         (s.winner.bind (·.slotTime)) s.agents shortlist])

/-- SwarmOrchestrator._evaluate_complete, one atomic execution (the method
has no awaits): return unless the completion counter has reached the
candidate count and the flag is still unset; otherwise set the flag and run
the arbitration body. -/
def evaluate_complete (s : SwarmState) : SwarmState × List SwarmEvent :=
  if s.completed_count < s.agents.length ∨ s.completed then (s, [])
  else arbitrationBody { s with completed := true }

/-- One tool call of a webhook payload; `slot_time` is
`parameters.get("slot_time")`. -/
structure ToolCall where
  tool_name : String
  slot_time : Option String
deriving DecidableEq, Repr

/-- The arguments of one `process_webhook_result` invocation. -/
structure WebhookMsg where
  agent_id : String
  call_status : String
  offered_slot : Option String
  booking_confirmed : Bool
  tool_calls : List ToolCall
deriving DecidableEq, Repr

/-- SwarmOrchestrator.process_webhook_result (synchronous, one atomic
block).  Returns the new state, the emitted events, and the number of
`_evaluate_complete` tasks scheduled via `asyncio.create_task`. -/
def process_webhook_result (s : SwarmState) (m : WebhookMsg) :
    SwarmState × List SwarmEvent × Nat :=
  match s.agents.find? (fun a => a.id == m.agent_id) with
  | none => (s, [], 0)
  | some _ =>
    if m.call_status == "failed" || m.call_status == "no_answer" then
      ({ s with agents := update_agent s.agents m.agent_id AgentStatus.rejected none,
                completed_count := s.completed_count + 1 },
       [SwarmEvent.update m.agent_id AgentStatus.rejected none], 1)
    else
      match m.tool_calls.find? (fun t => t.tool_name == "book_appointment") with
      | none =>
        ({ s with agents := update_agent s.agents m.agent_id AgentStatus.rejected
                    m.offered_slot,
                  completed_count := s.completed_count + 1 },
         [SwarmEvent.update m.agent_id AgentStatus.rejected m.offered_slot], 1)
      | some tool =>
        let slot_time := pyOrStr tool.slot_time m.offered_slot
        let is_valid := truthyStr slot_time &&
          decide (parse_time MIN_VALID_TIME ≤ parse_time (slot_time.getD ""))
        if s.completed then
          ({ s with agents := update_agent s.agents m.agent_id AgentStatus.cancelled
                      slot_time,
                    completed_count := s.completed_count + 1 },
           [SwarmEvent.update m.agent_id AgentStatus.cancelled slot_time], 1)
        else if is_valid && m.booking_confirmed then
          ({ s with agents := update_agent s.agents m.agent_id AgentStatus.booked
                      slot_time,
                    completed_count := s.completed_count + 1 },
           [SwarmEvent.update m.agent_id AgentStatus.booked slot_time], 1)
        else
          ({ s with agents := update_agent s.agents m.agent_id AgentStatus.rejected
                      slot_time,
                    completed_count := s.completed_count + 1 },
           [SwarmEvent.update m.agent_id AgentStatus.rejected slot_time], 1)

/-- swarm.get_swarm: dictionary lookup in the `_swarms` registry. -/
def get_swarm {α : Type} (swarms : List (String × α)) (swarm_id : String) :
    Option α :=
  dictGet swarms swarm_id

/-- `dict.pop(key, None)`: remove a key from a registry. -/
def dictPop {α : Type} (l : List (String × α)) (k : String) : List (String × α) :=
  l.filter (fun p => p.1 != k)

/-- `best_result` of main.get_results when the race has a winner: provider
name, slot, a hard-coded score of 0.89 and rank 1. -/
structure BestResult where
  providerName : String
  slotDatetime : Option String
  durationMinutes : Nat
  score : ℚ
  rank : Nat
deriving DecidableEq, Repr

/-- models.AppointmentResult, the response of the results endpoint. -/
structure AppointmentResult where
  swarm_id : String
  status : String
  total_results : Nat
  best_result : Option BestResult
  agents : List ProviderAgent
  ranked_shortlist : List ShortlistRow
deriving DecidableEq, Repr

/-- main.get_results: read-only results query for a race id. -/
def get_results (swarms : List (String × SwarmState)) (swarm_id : String) :
    AppointmentResult :=
  match get_swarm swarms swarm_id with
  | none =>
    { swarm_id := swarm_id, status := "unknown", total_results := 0,
      best_result := none, agents := [], ranked_shortlist := [] }
  | some swarm =>
    let booked := swarm.agents.filter isBookedWithSlot
    let best := swarm.winner.map (fun w =>
      { providerName := w.name, slotDatetime := w.slotTime,
        durationMinutes := 30, score := 0.89, rank := 1 })
    { swarm_id := swarm_id,
      status := if swarm.completed then "completed" else "running",
      total_results := booked.length,
      best_result := best,
      agents := swarm.agents,
      ranked_shortlist := swarm.ranked_shortlist }

/-! ## The concurrent transition system

Each internal worker (`run_agent` in `_run_demo`) is a coroutine whose code
between `await` points runs atomically under asyncio.  Its three atomic
stages are: the calling update, the negotiating update, and the terminal
resolution (which also increments the completion counter and runs
`_evaluate_complete` inline, since awaiting a coroutine with no internal
awaits executes it synchronously).  A webhook delivery is one atomic block
that schedules `_evaluate_complete` as a separate task
(`asyncio.create_task`), which then runs later as its own atomic step. -/

/-- Program counter of an internal worker coroutine. -/
inductive Stage where
  | stage1
  | stage2
  | stage3
  | finished
deriving DecidableEq, Repr

/-- One internal worker: its agent, the slot the simulated receptionist
offers (chosen before the first await), and its program counter. -/
structure Worker where
  agentId : String
  agentName : String
  slot : String
  pc : Stage
deriving DecidableEq, Repr

/-- A configuration of the whole race: orchestrator state, the event log
already broadcast, the worker coroutines, the number of scheduled
`_evaluate_complete` tasks not yet run, and the webhook messages not yet
delivered. -/
structure Config where
  race : SwarmState
  log : List SwarmEvent
  workers : List Worker
  pendingEvals : Nat
  inbox : List WebhookMsg
deriving DecidableEq, Repr

/-- One scheduler choice: run worker `i`'s next stage, deliver inbox
message `j` (through the webhook handler, which drops it unless the race is
registered and not completed), or run one scheduled evaluate task. -/
inductive Action where
  | workerStep (i : Nat)
  | deliver (j : Nat)
  | runEval
deriving DecidableEq, Repr

/-- One atomic stage of an internal worker, acting on the shared race
state.  Stage 1 and 2 return early (never to run again) when the race
completed during their sleep; stage 3 always resolves the agent (cancelled
when the race completed, else booked/rejected by the 09:30 floor), then
increments the completion counter and runs `_evaluate_complete` inline. -/
def workerBody (w : Worker) (s : SwarmState) :
    Worker × SwarmState × List SwarmEvent :=
  match w.pc with
  | Stage.stage1 =>
    if s.completed then ({ w with pc := Stage.finished }, s, [])
    else
      ({ w with pc := Stage.stage2 },
       { s with agents := update_agent s.agents w.agentId AgentStatus.calling none },
       [SwarmEvent.update w.agentId AgentStatus.calling none])
  | Stage.stage2 =>
    if s.completed then ({ w with pc := Stage.finished }, s, [])
    else
      ({ w with pc := Stage.stage3 },
       { s with agents := update_agent s.agents w.agentId AgentStatus.negotiating (some w.slot) },
       [SwarmEvent.update w.agentId AgentStatus.negotiating (some w.slot)])
  | Stage.stage3 =>
    let is_valid := decide (parse_time MIN_VALID_TIME ≤ parse_time w.slot)
    let step1 : SwarmState × List SwarmEvent :=
      if s.completed then
        ({ s with agents := update_agent s.agents w.agentId AgentStatus.cancelled (some w.slot) },
         [SwarmEvent.update w.agentId AgentStatus.cancelled (some w.slot)])
      else if is_valid then
        ({ s with agents := update_agent s.agents w.agentId AgentStatus.booked (some w.slot) },
         [SwarmEvent.update w.agentId AgentStatus.booked (some w.slot)])
      else
        ({ s with agents := update_agent s.agents w.agentId AgentStatus.rejected (some w.slot) },
         [SwarmEvent.update w.agentId AgentStatus.rejected (some w.slot)])
    let s2 : SwarmState := { step1.1 with completed_count := step1.1.completed_count + 1 }
    let ev := evaluate_complete s2
    ({ w with pc := Stage.finished }, ev.1, step1.2 ++ ev.2)
  | Stage.finished => (w, s, [])

/-- Execute one scheduler action.  Delivery routes through the webhook
handler, which calls `process_webhook_result` only when the race is still
registered and not completed (`if swarm and agent_id and not
swarm.completed`); otherwise the message is dropped silently. -/
def execAction (c : Config) : Action → Config
  | Action.workerStep i =>
    match c.workers[i]? with
    | none => c
    | some w =>
      let r := workerBody w c.race
      { c with race := r.2.1, workers := c.workers.set i r.1,
               log := c.log ++ r.2.2 }
  | Action.deliver j =>
    match c.inbox[j]? with
    | none => c
    | some m =>
      if c.race.registered && !c.race.completed then
        let r := process_webhook_result c.race m
        { c with race := r.1, log := c.log ++ r.2.1,
                 pendingEvals := c.pendingEvals + r.2.2,
                 inbox := c.inbox.eraseIdx j }
      else { c with inbox := c.inbox.eraseIdx j }
  | Action.runEval =>
    if c.pendingEvals = 0 then c
    else
      let r := evaluate_complete c.race
      { c with race := r.1, log := c.log ++ r.2,
               pendingEvals := c.pendingEvals - 1 }

/-- Run a list of scheduler actions. -/
def run (c : Config) : List Action → Config
  | [] => c
  | a :: rest => run (execAction c a) rest

/-- The initial configuration of a race over the given candidates, as
`SwarmOrchestrator.run` builds it: every agent starts `searching` with no
slot (as in `to_provider_agents`), the race is registered, the start event
is emitted, one worker per agent is spawned with its offered slot, and
`msgs` are the webhook deliveries that may arrive during the race. -/
def initConfig (items : List (ProviderAgent × String))
    (meta : List (String × Option ℚ × Option ℚ))
    (weights : Option PreferenceWeights) (msgs : List WebhookMsg) : Config :=
  let agents := items.map
    (fun p => { p.1 with status := AgentStatus.searching, slotTime := none })
  { race :=
      { agents := agents, winner := none, ranked_shortlist := [],
        completed := false, completed_count := 0, provider_metadata := meta,
        preference_weights := weights, registered := true },
    log := [SwarmEvent.start agents],
    workers := items.map
      (fun p => { agentId := p.1.id, agentName := p.1.name, slot := p.2,
                  pc := Stage.stage1 }),
    pendingEvals := 0,
    inbox := msgs }

/-- The candidate list as `SwarmOrchestrator.run` initialises it. -/
def initAgents (items : List (ProviderAgent × String)) : List ProviderAgent :=
  items.map (fun p => { p.1 with status := AgentStatus.searching, slotTime := none })

/-- The worker coroutines as `_run_demo` spawns them. -/
def initWorkers (items : List (ProviderAgent × String)) : List Worker :=
  items.map (fun p => { agentId := p.1.id, agentName := p.1.name, slot := p.2, pc := Stage.stage1 })

/-- A race run to quiescence: every worker coroutine has returned and every
scheduled evaluate task has run. -/
def completeRun (c : Config) : Bool :=
  c.workers.all (fun w => w.pc == Stage.finished) && c.pendingEvals == 0

/-! ## Predicates used by the run-level invariants -/

/-- Is this a terminal status (secured/declined/superseded)? -/
def isTerminalStatus (st : AgentStatus) : Bool :=
  st == AgentStatus.booked || st == AgentStatus.rejected ||
    st == AgentStatus.cancelled

/-- Number of finished worker coroutines. -/
def doneCount (ws : List Worker) : Nat :=
  (ws.filter (fun w => w.pc == Stage.finished)).length

/-- The terminal status a worker's stage 3 assigns: superseded when the race
already completed, else secured or declined by the 09:30 floor. -/
def stage3Status (w : Worker) (s : SwarmState) : AgentStatus :=
  if s.completed then AgentStatus.cancelled
  else if decide (parse_time MIN_VALID_TIME ≤ parse_time w.slot) then
    AgentStatus.booked
  else AgentStatus.rejected

/-- The race state after a worker's stage-3 resolution, before the inline
`_evaluate_complete`: agent updated to its terminal status, counter
incremented. -/
def stage3State (w : Worker) (s : SwarmState) : SwarmState :=
  { s with agents := update_agent s.agents w.agentId (stage3Status w s) (some w.slot),
           completed_count := s.completed_count + 1 }

/-- Number of final (`swarm:completed`) events in a log. -/
def countFinalEvents (log : List SwarmEvent) : Nat :=
  (log.filter (fun e => match e with
    | SwarmEvent.raceCompleted _ _ _ _ => true
    | _ => false)).length

/-- Every secured agent carries a truthy slot at or after the 09:30 floor
(the status-level form of the transition-validation rule). -/
def BookedOk (agents : List ProviderAgent) : Prop :=
  ∀ a ∈ agents, a.status = AgentStatus.booked →
    truthyStr a.slotTime = true ∧
      parse_time MIN_VALID_TIME ≤ parse_time (a.slotTime.getD "")

/-- Every agent's rating and distance resolve through the metadata snapshot
or its own fields, so `calculate_score` cannot raise (the C7 failure mode
is absent). -/
def Resolv (agents : List ProviderAgent)
    (meta : List (String × Option ℚ × Option ℚ)) : Prop :=
  ∀ a ∈ agents,
    ((metaRating meta a.id).orElse (fun _ => a.rating)).isSome = true ∧
    ((metaDistance meta a.id).orElse (fun _ => a.distance_miles)).isSome = true

/-- The per-agent effect of the demotion loop under unique ids: a secured
non-winner is superseded, everyone else is untouched. -/
def demoteF (wId : String) (a : ProviderAgent) : ProviderAgent :=
  if demoteCond wId a then { a with status := AgentStatus.cancelled } else a

/-- A terminal-state transition event for this agent id is in the log. -/
def TerminalInLog (id : String) (log : List SwarmEvent) : Prop :=
  ∃ st sl, isTerminalStatus st = true ∧ SwarmEvent.update id st sl ∈ log

/-- The inductive invariant of a race configuration, relative to the fixed
candidate-id list `ids` (of length `N`).  Its components express: the agent
list keeps the initial ids and size; workers correspond to the candidates;
every secured agent passed the slot floor; the completion counter dominates
the number of finished workers until the flag is set; an unset flag means
the counter is still short or an evaluate task is pending; a set flag means
the counter reached N; at most one final event is ever emitted, and only
with the flag set; every emitted final snapshot has no secured candidate
other than the winner; and every candidate observed negotiating has a
worker at its resolution stage or a terminal event already logged. -/
structure Inv (ids : List String) (N : Nat) (c : Config) : Prop where
  ids_eq : c.race.agents.map (·.id) = ids
  len_eq : c.race.agents.length = N
  wids_eq : c.workers.map (·.agentId) = ids
  booked_ok : BookedOk c.race.agents
  count_ge_done : c.race.completed = false → doneCount c.workers ≤ c.race.completed_count
  count_lt_or_pend : c.race.completed = false →
    c.race.completed_count < N ∨ 1 ≤ c.pendingEvals ∨ N = 0
  count_ge_n : c.race.completed = true → N ≤ c.race.completed_count
  final_le : countFinalEvents c.log ≤ 1
  final_imp : 1 ≤ countFinalEvents c.log → c.race.completed = true
  snapshot_ok : ∀ wid wslot all sl,
    SwarmEvent.raceCompleted wid wslot all sl ∈ c.log →
    ∀ a ∈ all, a.status = AgentStatus.booked → wid = some a.id
  neg_term : ∀ id sl, SwarmEvent.update id AgentStatus.negotiating sl ∈ c.log →
    ∃ j : Nat, ∃ hj : j < c.workers.length,
      (c.workers.get ⟨j, hj⟩).agentId = id ∧
        ((c.workers.get ⟨j, hj⟩).pc = Stage.stage3 ∨ TerminalInLog id c.log)

/-- The extended invariant under resolvable scoring inputs: additionally,
scoring stays resolvable (so arbitration cannot raise) and a set completion
flag means the final event was emitted exactly once. -/
structure InvR (ids : List String) (N : Nat) (c : Config) : Prop where
  base : Inv ids N c
  resolv : Resolv c.race.agents c.race.provider_metadata
  comp_iff : c.race.completed = true → countFinalEvents c.log = 1

/-! ## Concrete scenarios used by counterexamples and witnesses -/

/-- A candidate with full metadata, offered slot 10:00 AM. -/
def agA : ProviderAgent :=
  ⟨"a1", "Dentist A", AgentStatus.idle, none, some 4, some 2⟩

/-- A second candidate with full metadata. -/
def agB : ProviderAgent :=
  ⟨"a2", "Dentist B", AgentStatus.idle, none, some 5, some 1⟩

/-- A webhook delivery booking agent a1 at 10:00 AM (the shape the webhook
handler produces for a `book_appointment` tool call). -/
def msgBookA1 : WebhookMsg :=
  ⟨"a1", "completed", some "10:00 AM", true, [⟨"book_appointment", some "10:00 AM"⟩]⟩

/-- A webhook delivery booking agent a2 at 10:00 AM. -/
def msgBookA2 : WebhookMsg :=
  ⟨"a2", "completed", some "10:00 AM", true, [⟨"book_appointment", some "10:00 AM"⟩]⟩

/-- A one-candidate race in which a webhook booking for a1 lands while a1's
internal worker is mid-negotiation: the webhook increments the counter to 1
(= N), arbitration runs, and then a1's worker still resolves, incrementing
the counter a second time. -/
def cexC1Run : Config :=
  run (initConfig [(agA, "10:00 AM")] [("a1", some 4, some 2)] none [msgBookA1])
    [Action.workerStep 0, Action.workerStep 0, Action.deliver 0, Action.runEval,
     Action.workerStep 0]

/-- A two-candidate race where a1's receptionist offers 9:00 AM (before the
floor) but the race completes first (two webhook deliveries for a2), so
a1's stage-3 resolution lands in the completed branch. -/
def cexC2Run : Config :=
  run (initConfig [(agA, "9:00 AM"), (agB, "10:00 AM")]
      [("a1", some 4, some 2), ("a2", some 5, some 1)] none [msgBookA2, msgBookA2])
    [Action.workerStep 0, Action.workerStep 0, Action.deliver 0, Action.deliver 0,
     Action.runEval, Action.runEval, Action.workerStep 0, Action.workerStep 1]

/-- A two-candidate race where a1 is observed in the calling state, then the
race completes (two webhook deliveries for a2) before a1's negotiating
stage: a1's worker returns at the stage-2 completion check without emitting
any terminal event. -/
def cexC9Run : Config :=
  run (initConfig [(agA, "10:00 AM"), (agB, "11:00 AM")]
      [("a1", some 4, some 2), ("a2", some 5, some 1)] none [msgBookA2, msgBookA2])
    [Action.workerStep 0, Action.deliver 0, Action.deliver 0, Action.runEval,
     Action.runEval, Action.workerStep 0, Action.workerStep 1]

/-- Candidate matching the C6 round-trip scenario: slot 09:30, rating 4.5,
distance 5. -/
def agC6 : ProviderAgent :=
  ⟨"p1", "Provider", AgentStatus.booked, some "9:30 AM", some 4.5, some 5⟩

/-- A completed race state with winner agA, for the C10 witness. -/
def c10State : SwarmState :=
  { agents := [agA], winner := some agA, ranked_shortlist := [],
    completed := true, completed_count := 1, provider_metadata := [],
    preference_weights := none, registered := true }

/-- A stage-3 worker whose receptionist offered 9:00 AM (below the floor). -/
def c2Worker : Worker := ⟨"a1", "Dentist A", "9:00 AM", Stage.stage3⟩

/-- The initial race state of a one-candidate race (flag unset). -/
def c2Open : SwarmState := (initConfig [(agA, "9:00 AM")] [] none []).race

/-- The same race state with the completion flag set. -/
def c2Closed : SwarmState := { c2Open with completed := true }

/-- A secured candidate with slot 10:00 AM and full metadata. -/
def c3Agent : ProviderAgent :=
  ⟨"a1", "Dentist A", AgentStatus.booked, some "10:00 AM", some 4, some 2⟩

/-- A race state at arbitration with exactly one secured candidate. -/
def c3State : SwarmState :=
  { agents := [c3Agent], winner := none, ranked_shortlist := [],
    completed := true, completed_count := 1,
    provider_metadata := [("a1", some 4, some 2)],
    preference_weights := none, registered := true }

/-- Secured candidates for the shortlist scenario: x1 and x4 are identical
up to id/name (a score tie), x2 scores highest, x3 was declined. -/
def x1 : ProviderAgent := ⟨"x1", "P1", AgentStatus.booked, some "10:00 AM", some 4, some 2⟩

/-- The highest-scoring secured candidate of the shortlist scenario. -/
def x2 : ProviderAgent := ⟨"x2", "P2", AgentStatus.booked, some "9:45 AM", some 5, some 1⟩

/-- A declined candidate (must be excluded from the shortlist). -/
def x3 : ProviderAgent := ⟨"x3", "P3", AgentStatus.rejected, some "9:00 AM", some 3, some 3⟩

/-- A candidate scoring exactly like x1 but later in insertion order. -/
def x4 : ProviderAgent := ⟨"x4", "P4", AgentStatus.booked, some "10:00 AM", some 4, some 2⟩

/-- The candidate list of the shortlist scenario. -/
def c5Agents : List ProviderAgent := [x1, x2, x3, x4]

/-- The sorted scored list of the shortlist scenario (x2 first, then the
x1/x4 tie in insertion order). -/
def c5Scored : List (ProviderAgent × ℚ) :=
  [(x2, 1589 / 1800), (x1, 71 / 90), (x4, 71 / 90)]

/-- A race state at arbitration with no secured candidate. -/
def c4NoWin : SwarmState :=
  { agents := [x3], winner := none, ranked_shortlist := [],
    completed := true, completed_count := 1, provider_metadata := [],
    preference_weights := none, registered := true }

/-- Is this event a terminal-state transition event for the given agent? -/
def isTerminalEventFor (id : String) (e : SwarmEvent) : Bool :=
  match e with
  | SwarmEvent.update i st _ =>
    i == id && (st == AgentStatus.booked || st == AgentStatus.rejected ||
      st == AgentStatus.cancelled)
  | _ => false


end CallPilot

namespace CallPilot

/-! ## Helper lemmas: update_agent, BookedOk, pyMinBy -/

theorem pyOrStr_self (x : Option String) : pyOrStr x x = x := by
  unfold pyOrStr
  split <;> rfl

theorem pyOrStr_truthy (x y : Option String) (h : truthyStr x = true) :
    pyOrStr x y = x := by
  simp [pyOrStr, h]

theorem update_agent_cons (a : ProviderAgent) (rest : List ProviderAgent)
    (id : String) (st : AgentStatus) (sl : Option String) :
    update_agent (a :: rest) id st sl =
      if (a.id == id) = true then
        { a with status := st, slotTime := pyOrStr sl a.slotTime } :: rest
      else a :: update_agent rest id st sl := rfl

theorem update_agent_length (l : List ProviderAgent) (id : String)
    (st : AgentStatus) (sl : Option String) :
    (update_agent l id st sl).length = l.length := by
  induction l with
  | nil => rfl
  | cons a rest ih =>
    unfold update_agent
    split
    · simp
    · simpa using ih

theorem update_agent_ids (l : List ProviderAgent) (id : String)
    (st : AgentStatus) (sl : Option String) :
    (update_agent l id st sl).map (·.id) = l.map (·.id) := by
  induction l with
  | nil => rfl
  | cons a rest ih =>
    unfold update_agent
    split
    · simp
    · simpa using ih

theorem update_agent_static (l : List ProviderAgent) (id : String)
    (st : AgentStatus) (sl : Option String) :
    (update_agent l id st sl).map (fun a => (a.id, a.name, a.rating, a.distance_miles)) =
      l.map (fun a => (a.id, a.name, a.rating, a.distance_miles)) := by
  induction l with
  | nil => rfl
  | cons a rest ih =>
    unfold update_agent
    split
    · simp
    · simpa using ih

theorem update_agent_mem (l : List ProviderAgent) (id : String)
    (st : AgentStatus) (sl : Option String) (b : ProviderAgent)
    (h : b ∈ update_agent l id st sl) :
    b ∈ l ∨ ∃ a ∈ l, (a.id == id) = true ∧
      b = { a with status := st, slotTime := pyOrStr sl a.slotTime } := by
  induction l with
  | nil => simp [update_agent] at h
  | cons a rest ih =>
    unfold update_agent at h
    by_cases hid : (a.id == id) = true
    · rw [if_pos hid] at h
      rcases List.mem_cons.mp h with hb | hb
      · exact Or.inr ⟨a, List.mem_cons_self a rest, hid, hb⟩
      · exact Or.inl (List.mem_cons_of_mem a hb)
    · rw [if_neg hid] at h
      rcases List.mem_cons.mp h with hb | hb
      · exact Or.inl (hb ▸ List.mem_cons_self a rest)
      · rcases ih hb with hb2 | ⟨x, hx, hxid, hxb⟩
        · exact Or.inl (List.mem_cons_of_mem a hb2)
        · exact Or.inr ⟨x, List.mem_cons_of_mem a hx, hxid, hxb⟩

theorem update_agent_skip (l : List ProviderAgent) (id : String)
    (st : AgentStatus) (sl : Option String)
    (h : ∀ a ∈ l, (a.id == id) = false) :
    update_agent l id st sl = l := by
  induction l with
  | nil => rfl
  | cons a rest ih =>
    unfold update_agent
    rw [if_neg (by simp [h a (List.mem_cons_self a rest)])]
    rw [ih (fun x hx => h x (List.mem_cons_of_mem a hx))]

theorem update_agent_append_left (l₁ l₂ : List ProviderAgent) (id : String)
    (st : AgentStatus) (sl : Option String)
    (h : ∀ a ∈ l₁, (a.id == id) = false) :
    update_agent (l₁ ++ l₂) id st sl = l₁ ++ update_agent l₂ id st sl := by
  induction l₁ with
  | nil => rfl
  | cons a rest ih =>
    rw [List.cons_append, update_agent_cons,
      if_neg (by simp [h a (List.mem_cons_self a rest)]),
      ih (fun x hx => h x (List.mem_cons_of_mem a hx)), List.cons_append]

theorem update_agent_cons_hit (a : ProviderAgent) (rest : List ProviderAgent)
    (st : AgentStatus) (sl : Option String) :
    update_agent (a :: rest) a.id st sl =
      { a with status := st, slotTime := pyOrStr sl a.slotTime } :: rest := by
  unfold update_agent
  rw [if_pos (by simp)]

theorem bookedOk_update (l : List ProviderAgent) (id : String)
    (st : AgentStatus) (sl : Option String) (h : BookedOk l)
    (hst : st = AgentStatus.booked → truthyStr sl = true ∧
      parse_time MIN_VALID_TIME ≤ parse_time (sl.getD "")) :
    BookedOk (update_agent l id st sl) := by
  intro b hb hbst
  rcases update_agent_mem l id st sl b hb with hmem | ⟨a, _, _, hba⟩
  · exact h b hmem hbst
  · subst hba
    simp only at hbst
    obtain ⟨h1, h2⟩ := hst hbst
    rw [pyOrStr_truthy sl a.slotTime h1]
    exact ⟨h1, h2⟩

theorem foldlMin_spec (key : ProviderAgent → Nat) (xs : List ProviderAgent)
    (b : ProviderAgent) :
    (xs.foldl (fun best y => if key y < key best then y else best) b = b ∨
      xs.foldl (fun best y => if key y < key best then y else best) b ∈ xs) ∧
    key (xs.foldl (fun best y => if key y < key best then y else best) b) ≤ key b ∧
    (∀ y ∈ xs,
      key (xs.foldl (fun best y => if key y < key best then y else best) b) ≤ key y) := by
  induction xs generalizing b with
  | nil => exact ⟨Or.inl rfl, le_refl _, by simp⟩
  | cons y ys ih =>
    rw [List.foldl_cons]
    obtain ⟨hmem, hle, hall⟩ := ih (if key y < key b then y else b)
    have hleb : key ((if key y < key b then y else b)) ≤ key b := by
      split
      · omega
      · exact le_refl _
    have hley : key ((if key y < key b then y else b)) ≤ key y := by
      split
      · exact le_refl _
      · omega
    refine ⟨?_, le_trans hle hleb, ?_⟩
    · rcases hmem with hmem | hmem
      · rw [hmem]
        split
        · exact Or.inr (List.mem_cons_self y ys)
        · exact Or.inl rfl
      · exact Or.inr (List.mem_cons_of_mem y hmem)
    · intro z hz
      rcases List.mem_cons.mp hz with hz | hz
      · subst hz
        exact le_trans hle hley
      · exact hall z hz

theorem foldlMin_first (key : ProviderAgent → Nat) (xs : List ProviderAgent)
    (b : ProviderAgent) :
    ∃ l₁ l₂, b :: xs =
        l₁ ++ (xs.foldl (fun best y => if key y < key best then y else best) b) :: l₂ ∧
      ∀ y ∈ l₁,
        key (xs.foldl (fun best y => if key y < key best then y else best) b) < key y := by
  induction xs generalizing b with
  | nil => exact ⟨[], [], rfl, by simp⟩
  | cons y ys ih =>
    rw [List.foldl_cons]
    by_cases hcmp : key y < key b
    · rw [if_pos hcmp]
      obtain ⟨l₁, l₂, hsplit, hlt⟩ := ih y
      refine ⟨b :: l₁, l₂, by rw [List.cons_append, ← hsplit], ?_⟩
      intro z hz
      rcases List.mem_cons.mp hz with hz | hz
      · subst hz
        have := (foldlMin_spec key ys y).2.1
        omega
      · exact hlt z hz
    · rw [if_neg hcmp]
      obtain ⟨l₁, l₂, hsplit, hlt⟩ := ih b
      cases l₁ with
      | nil =>
        rw [List.nil_append] at hsplit
        have hfb : ys.foldl (fun best z => if key z < key best then z else best) b = b := by
          injection hsplit with h1 h2
          exact h1.symm
        refine ⟨[], y :: ys, ?_, by simp⟩
        rw [List.nil_append, hfb]
      | cons p l₁' =>
        rw [List.cons_append] at hsplit
        have hpb : b = p := ((List.cons.injEq _ _ _ _).mp hsplit).1
        have htail : ys = l₁' ++ (ys.foldl (fun best z => if key z < key best then z else best) b) :: l₂ :=
          ((List.cons.injEq _ _ _ _).mp hsplit).2
        refine ⟨b :: y :: l₁', l₂, ?_, ?_⟩
        · rw [List.cons_append, List.cons_append]
          conv_lhs => rw [htail]
        · intro z hz
          have hrb : key (ys.foldl (fun best z => if key z < key best then z else best) b) < key b := by
            have h3 := hlt p (List.mem_cons_self p l₁')
            rw [← hpb] at h3
            exact h3
          rcases List.mem_cons.mp hz with hz | hz
          · subst hz
            exact hrb
          · rcases List.mem_cons.mp hz with hz | hz
            · subst hz
              omega
            · exact hlt z (List.mem_cons_of_mem p hz)

theorem pyMinBy_eq_none_iff (key : ProviderAgent → Nat)
    (l : List ProviderAgent) : pyMinBy key l = none ↔ l = [] := by
  cases l <;> simp [pyMinBy]

theorem pyMinBy_spec (key : ProviderAgent → Nat) (l : List ProviderAgent)
    (x : ProviderAgent) (h : pyMinBy key l = some x) :
    x ∈ l ∧ (∀ y ∈ l, key x ≤ key y) ∧
      ∃ l₁ l₂, l = l₁ ++ x :: l₂ ∧ ∀ y ∈ l₁, key x < key y := by
  cases l with
  | nil => simp [pyMinBy] at h
  | cons b xs =>
    simp only [pyMinBy, Option.some.injEq] at h
    subst h
    obtain ⟨hmem, hle, hall⟩ := foldlMin_spec key xs b
    obtain ⟨l₁, l₂, hsplit, hlt⟩ := foldlMin_first key xs b
    refine ⟨?_, ?_, l₁, l₂, hsplit, hlt⟩
    · rcases hmem with hmem | hmem
      · rw [hmem]
        exact List.mem_cons_self b xs
      · exact List.mem_cons_of_mem b hmem
    · intro y hy
      rcases List.mem_cons.mp hy with hy | hy
      · subst hy
        exact hle
      · exact hall y hy

/-! ## Helper lemmas: the demotion loop -/

theorem demote_pass_zero (wId : String) (i : Nat) (l : List ProviderAgent)
    (evs : List SwarmEvent) : demote_pass wId i 0 l evs = (l, evs) := rfl

theorem demote_pass_succ (wId : String) (i fuel : Nat) (l : List ProviderAgent)
    (evs : List SwarmEvent) :
    demote_pass wId i (fuel + 1) l evs =
      match l[i]? with
      | none => (l, evs)
      | some a =>
        if demoteCond wId a then
          demote_pass wId (i + 1) fuel
            (update_agent l a.id AgentStatus.cancelled a.slotTime)
            (evs ++ [SwarmEvent.update a.id AgentStatus.cancelled a.slotTime])
        else demote_pass wId (i + 1) fuel l evs := rfl

theorem demote_pass_succ_none (wId : String) (i fuel : Nat)
    (l : List ProviderAgent) (evs : List SwarmEvent) (h : l[i]? = none) :
    demote_pass wId i (fuel + 1) l evs = (l, evs) := by
  rw [demote_pass_succ, h]

theorem demote_pass_succ_some (wId : String) (i fuel : Nat)
    (l : List ProviderAgent) (evs : List SwarmEvent) (a : ProviderAgent)
    (h : l[i]? = some a) :
    demote_pass wId i (fuel + 1) l evs =
      if demoteCond wId a then
        demote_pass wId (i + 1) fuel
          (update_agent l a.id AgentStatus.cancelled a.slotTime)
          (evs ++ [SwarmEvent.update a.id AgentStatus.cancelled a.slotTime])
      else demote_pass wId (i + 1) fuel l evs := by
  rw [demote_pass_succ, h]

theorem demote_pass_ids (wId : String) (fuel : Nat) :
    ∀ (i : Nat) (l : List ProviderAgent) (evs : List SwarmEvent),
    (demote_pass wId i fuel l evs).1.map (·.id) = l.map (·.id) := by
  induction fuel with
  | zero => intro i l evs; rfl
  | succ fuel ih =>
    intro i l evs
    cases hl : l[i]? with
    | none => rw [demote_pass_succ_none wId i fuel l evs hl]
    | some a =>
      rw [demote_pass_succ_some wId i fuel l evs a hl]
      by_cases hc : demoteCond wId a = true
      · rw [if_pos hc, ih, update_agent_ids]
      · rw [if_neg hc, ih]

theorem demote_pass_static (wId : String) (fuel : Nat) :
    ∀ (i : Nat) (l : List ProviderAgent) (evs : List SwarmEvent),
    (demote_pass wId i fuel l evs).1.map
        (fun a => (a.id, a.name, a.rating, a.distance_miles)) =
      l.map (fun a => (a.id, a.name, a.rating, a.distance_miles)) := by
  induction fuel with
  | zero => intro i l evs; rfl
  | succ fuel ih =>
    intro i l evs
    cases hl : l[i]? with
    | none => rw [demote_pass_succ_none wId i fuel l evs hl]
    | some a =>
      rw [demote_pass_succ_some wId i fuel l evs a hl]
      by_cases hc : demoteCond wId a = true
      · rw [if_pos hc, ih, update_agent_static]
      · rw [if_neg hc, ih]

theorem demote_pass_bookedOk (wId : String) (fuel : Nat) :
    ∀ (i : Nat) (l : List ProviderAgent) (evs : List SwarmEvent),
    BookedOk l → BookedOk (demote_pass wId i fuel l evs).1 := by
  induction fuel with
  | zero => intro i l evs h; exact h
  | succ fuel ih =>
    intro i l evs h
    cases hl : l[i]? with
    | none =>
      rw [demote_pass_succ_none wId i fuel l evs hl]
      exact h
    | some a =>
      rw [demote_pass_succ_some wId i fuel l evs a hl]
      by_cases hc : demoteCond wId a = true
      · rw [if_pos hc]
        refine ih _ _ _ (bookedOk_update _ _ _ _ h ?_)
        intro hcon
        exact absurd hcon (by decide)
      · rw [if_neg hc]
        exact ih _ _ _ h

theorem demote_pass_events (wId : String) (fuel : Nat) :
    ∀ (i : Nat) (l : List ProviderAgent) (evs : List SwarmEvent)
      (e : SwarmEvent), e ∈ (demote_pass wId i fuel l evs).2 →
    e ∈ evs ∨ ∃ id sl, e = SwarmEvent.update id AgentStatus.cancelled sl := by
  induction fuel with
  | zero => intro i l evs e h; exact Or.inl h
  | succ fuel ih =>
    intro i l evs e h
    cases hl : l[i]? with
    | none =>
      rw [demote_pass_succ_none wId i fuel l evs hl] at h
      exact Or.inl h
    | some a =>
      rw [demote_pass_succ_some wId i fuel l evs a hl] at h
      by_cases hc : demoteCond wId a = true
      · rw [if_pos hc] at h
        rcases ih _ _ _ _ h with h2 | h2
        · rcases List.mem_append.mp h2 with h3 | h3
          · exact Or.inl h3
          · refine Or.inr ⟨a.id, a.slotTime, ?_⟩
            simpa using h3
        · exact Or.inr h2
      · rw [if_neg hc] at h
        exact ih _ _ _ _ h

theorem demote_pass_spec (wId : String) :
    ∀ (post pre : List ProviderAgent) (evs : List SwarmEvent),
    ((pre ++ post).map (·.id)).Nodup →
    demote_pass wId pre.length post.length (pre ++ post) evs =
      (pre ++ post.map (demoteF wId),
       evs ++ (post.filter (demoteCond wId)).map
         (fun a => SwarmEvent.update a.id AgentStatus.cancelled a.slotTime)) := by
  intro post
  induction post with
  | nil =>
    intro pre evs _
    simp [demote_pass_zero]
  | cons a rest ih =>
    intro pre evs hnd
    have hget : (pre ++ a :: rest)[pre.length]? = some a := by
      rw [List.getElem?_append_right (le_refl pre.length)]
      simp
    rw [List.length_cons, demote_pass_succ_some wId pre.length rest.length _ evs a hget]
    have hpre : ∀ x ∈ pre, (x.id == a.id) = false := by
      intro x hx
      have hx2 : x.id ∈ pre.map (·.id) := List.mem_map_of_mem _ hx
      have hnotin : a.id ∉ pre.map (·.id) := by
        rw [List.map_append] at hnd
        have hdisj := (List.nodup_append.mp hnd).2.2
        intro hcon
        exact hdisj hcon (by simp)
      have hne : x.id ≠ a.id := fun hcon => hnotin (hcon ▸ hx2)
      simpa using hne
    by_cases hc : demoteCond wId a = true
    · rw [if_pos hc]
      have hupd : update_agent (pre ++ a :: rest) a.id AgentStatus.cancelled a.slotTime =
          (pre ++ [demoteF wId a]) ++ rest := by
        rw [update_agent_append_left _ _ _ _ _ hpre, update_agent_cons,
          if_pos (by simp), pyOrStr_self]
        simp [demoteF, hc]
      rw [hupd]
      have hlen : pre.length + 1 = (pre ++ [demoteF wId a]).length := by simp
      rw [hlen]
      have hnd2 : (((pre ++ [demoteF wId a]) ++ rest).map (·.id)).Nodup := by
        have hids : ((pre ++ [demoteF wId a]) ++ rest).map (·.id) =
            (pre ++ a :: rest).map (·.id) := by
          simp [demoteF, hc]
        rw [hids]
        exact hnd
      rw [ih (pre ++ [demoteF wId a]) _ hnd2]
      rw [List.filter_cons_of_pos hc]
      simp [demoteF, hc]
    · rw [if_neg hc]
      have hlen : pre.length + 1 = (pre ++ [a]).length := by simp
      have hsplit : pre ++ a :: rest = (pre ++ [a]) ++ rest := by simp
      rw [hlen, hsplit]
      have hnd2 : (((pre ++ [a]) ++ rest).map (·.id)).Nodup := by
        rw [← hsplit]
        exact hnd
      rw [ih (pre ++ [a]) _ hnd2]
      rw [List.filter_cons_of_neg (by simpa using hc)]
      simp [demoteF, hc]

theorem demote_pass_main (wId : String) (l : List ProviderAgent)
    (h : (l.map (·.id)).Nodup) :
    demote_pass wId 0 l.length l [] =
      (l.map (demoteF wId),
       (l.filter (demoteCond wId)).map
         (fun a => SwarmEvent.update a.id AgentStatus.cancelled a.slotTime)) := by
  have h2 := demote_pass_spec wId l [] [] (by simpa using h)
  simpa using h2

/-! ## Helper lemmas: scoring totality and the arbitration body -/

theorem demoteF_id (wId : String) (a : ProviderAgent) :
    (demoteF wId a).id = a.id := by
  unfold demoteF
  split <;> rfl

theorem demoteF_static (wId : String) (a : ProviderAgent) :
    (demoteF wId a).id = a.id ∧ (demoteF wId a).name = a.name ∧
      (demoteF wId a).rating = a.rating ∧
      (demoteF wId a).distance_miles = a.distance_miles := by
  unfold demoteF
  split <;> exact ⟨rfl, rfl, rfl, rfl⟩

theorem bookedOk_map_demoteF (wId : String) (l : List ProviderAgent)
    (h : BookedOk l) : BookedOk (l.map (demoteF wId)) := by
  intro b hb hst
  rcases List.mem_map.mp hb with ⟨a, ha, hba⟩
  subst hba
  by_cases hc : demoteCond wId a = true
  · unfold demoteF at hst
    rw [if_pos hc] at hst
    exact absurd hst (by simp)
  · unfold demoteF at hst ⊢
    rw [if_neg hc] at hst ⊢
    exact h a ha hst

theorem map_demoteF_booked (wId : String) (l : List ProviderAgent)
    (b : ProviderAgent) (hb : b ∈ l.map (demoteF wId))
    (hst : b.status = AgentStatus.booked) : b.id = wId := by
  rcases List.mem_map.mp hb with ⟨a, _, hba⟩
  subst hba
  by_cases hc : demoteCond wId a = true
  · unfold demoteF at hst
    rw [if_pos hc] at hst
    exact absurd hst (by simp)
  · unfold demoteF at hst ⊢
    rw [if_neg hc] at hst ⊢
    unfold demoteCond at hc
    rw [Bool.and_eq_true] at hc
    have hb2 : (a.status == AgentStatus.booked) = true := by simp [hst]
    have hne : ¬ (a.id != wId) = true := fun hcon => hc ⟨hcon, hb2⟩
    simpa using hne

theorem calculate_score_isSome (a : ProviderAgent) (tw rw dw : ℚ)
    (rv dm : Option ℚ)
    (h1 : (rv.orElse (fun _ => a.rating)).isSome = true)
    (h2 : (dm.orElse (fun _ => a.distance_miles)).isSome = true) :
    (calculate_score a tw rw dw rv dm).isSome = true := by
  unfold calculate_score
  cases hr : rv.orElse (fun _ => a.rating) with
  | none => rw [hr] at h1; exact absurd h1 (by simp)
  | some r =>
    cases hd : dm.orElse (fun _ => a.distance_miles) with
    | none => rw [hd] at h2; exact absurd h2 (by simp)
    | some d => simp

theorem mapM_option_isSome {α β : Type} (f : α → Option β) (l : List α)
    (h : ∀ a ∈ l, (f a).isSome = true) : (l.mapM f).isSome = true := by
  induction l with
  | nil => rw [List.mapM_nil]; rfl
  | cons a rest ih =>
    rw [List.mapM_cons]
    cases hfa : f a with
    | none =>
      have := h a (List.mem_cons_self a rest)
      rw [hfa] at this
      exact absurd this (by simp)
    | some b =>
      cases hrest : rest.mapM f with
      | none =>
        have := ih (fun x hx => h x (List.mem_cons_of_mem a hx))
        rw [hrest] at this
        exact absurd this (by simp)
      | some bs => simp [hfa, hrest]

theorem mapM_option_map_fst (l : List ProviderAgent)
    (g : ProviderAgent → Option ℚ) (r : List (ProviderAgent × ℚ))
    (h : l.mapM (fun a => (g a).map (fun s => (a, s))) = some r) :
    r.map Prod.fst = l ∧ ∀ p ∈ r, g p.1 = some p.2 := by
  induction l generalizing r with
  | nil =>
    simp only [List.mapM_nil, pure, Option.some.injEq] at h
    subst h
    simp
  | cons a rest ih =>
    rw [List.mapM_cons] at h
    cases hga : g a with
    | none => rw [hga] at h; simp at h
    | some s =>
      rw [hga] at h
      cases hrest : rest.mapM (fun a => (g a).map (fun s => (a, s))) with
      | none => rw [hrest] at h; simp at h
      | some rs =>
        rw [hrest] at h
        simp only [Option.map_some, Option.bind_some, Option.bind_eq_bind,
          pure, Option.some.injEq] at h
        have hr : r = (a, s) :: rs := by
          simpa using h.symm
        subst hr
        obtain ⟨ih1, ih2⟩ := ih rs hrest
        refine ⟨by simp [ih1], ?_⟩
        intro p hp
        rcases List.mem_cons.mp hp with hp | hp
        · subst hp
          exact hga
        · exact ih2 p hp

theorem rank_booked_agents_scored_isSome (agents : List ProviderAgent)
    (tw rw dw : ℚ) (meta : List (String × Option ℚ × Option ℚ))
    (h : Resolv agents meta) :
    (rank_booked_agents_scored agents tw rw dw meta).isSome = true := by
  simp only [rank_booked_agents_scored]
  by_cases he : (agents.filter isBookedWithSlot).isEmpty = true
  · simp [he]
  · rw [if_neg he]
    have hsome : ((agents.filter isBookedWithSlot).mapM (fun a =>
        (calculate_score a tw rw dw (metaRating meta a.id)
          (metaDistance meta a.id)).map (fun s => (a, s)))).isSome = true := by
      refine mapM_option_isSome _ _ ?_
      intro a ha
      have hmem : a ∈ agents := List.mem_of_mem_filter ha
      obtain ⟨h1, h2⟩ := h a hmem
      cases hcs : calculate_score a tw rw dw (metaRating meta a.id)
          (metaDistance meta a.id) with
      | none =>
        have h3 := calculate_score_isSome a tw rw dw _ _ h1 h2
        rw [hcs] at h3
        exact absurd h3 (by simp)
      | some q => simp [hcs]
    cases hm : (agents.filter isBookedWithSlot).mapM (fun a =>
        (calculate_score a tw rw dw (metaRating meta a.id)
          (metaDistance meta a.id)).map (fun s => (a, s))) with
    | none =>
      rw [hm] at hsome
      exact absurd hsome (by simp)
    | some r => rfl

theorem arbitrationScored_isSome (s : SwarmState)
    (h : Resolv s.agents s.provider_metadata) :
    (arbitrationScored s).isSome = true := by
  unfold arbitrationScored
  exact rank_booked_agents_scored_isSome _ _ _ _ _ h

theorem evaluate_complete_guard (s : SwarmState)
    (h : s.completed_count < s.agents.length ∨ s.completed = true) :
    evaluate_complete s = (s, []) := by
  unfold evaluate_complete
  rw [if_pos]
  exact h

theorem evaluate_complete_body (s : SwarmState)
    (h1 : s.agents.length ≤ s.completed_count) (h2 : s.completed = false) :
    evaluate_complete s = arbitrationBody { s with completed := true } := by
  unfold evaluate_complete
  rw [if_neg]
  intro hcon
  rcases hcon with hcon | hcon
  · omega
  · rw [h2] at hcon
    exact absurd hcon (by simp)

theorem arbitrationBody_none (s : SwarmState) (h : arbitrationScored s = none) :
    arbitrationBody s = (s, []) := by
  simp only [arbitrationBody, h]

theorem arbitrationBody_win (s : SwarmState) (scored : List (ProviderAgent × ℚ))
    (w : ProviderAgent) (hs : arbitrationScored s = some scored)
    (hw : rank_booked_agents s.agents = some w)
    (hnd : (s.agents.map (·.id)).Nodup) :
    arbitrationBody s =
      ({ s with agents := s.agents.map (demoteF w.id),
                winner := some w,
                ranked_shortlist := scored.enum.map
                  (fun q => mkShortlistRow s.provider_metadata q.1 q.2),
                registered := false },
       (s.agents.filter (demoteCond w.id)).map
           (fun a => SwarmEvent.update a.id AgentStatus.cancelled a.slotTime) ++
         [SwarmEvent.agentBooked w.id w.name (w.slotTime.getD "")] ++
         [SwarmEvent.raceCompleted (some w.id) w.slotTime
           (s.agents.map (demoteF w.id))
           (scored.enum.map (fun q => mkShortlistRow s.provider_metadata q.1 q.2))]) := by
  have hdm := demote_pass_main w.id s.agents hnd
  simp only [arbitrationBody, hs, hw, hdm]

theorem arbitrationBody_nowin (s : SwarmState) (scored : List (ProviderAgent × ℚ))
    (hs : arbitrationScored s = some scored)
    (hw : rank_booked_agents s.agents = none) :
    arbitrationBody s =
      ({ s with ranked_shortlist := scored.enum.map
                  (fun q => mkShortlistRow s.provider_metadata q.1 q.2),
                registered := false },
       [SwarmEvent.raceCompleted (s.winner.map (·.id)) (s.winner.bind (·.slotTime))
         s.agents
         (scored.enum.map (fun q => mkShortlistRow s.provider_metadata q.1 q.2))]) := by
  simp only [arbitrationBody, hs, hw]

/-! ## Helper lemmas: step characterizations and counting utilities -/

theorem workerBody_finished (w : Worker) (s : SwarmState)
    (h : w.pc = Stage.finished) : workerBody w s = (w, s, []) := by
  simp [workerBody, h]

theorem workerBody_stage1_completed (w : Worker) (s : SwarmState)
    (h : w.pc = Stage.stage1) (hc : s.completed = true) :
    workerBody w s = ({ w with pc := Stage.finished }, s, []) := by
  simp [workerBody, h, hc]

theorem workerBody_stage1_open (w : Worker) (s : SwarmState)
    (h : w.pc = Stage.stage1) (hc : s.completed = false) :
    workerBody w s = ({ w with pc := Stage.stage2 },
      { s with agents := update_agent s.agents w.agentId AgentStatus.calling none },
      [SwarmEvent.update w.agentId AgentStatus.calling none]) := by
  simp [workerBody, h, hc]

theorem workerBody_stage2_completed (w : Worker) (s : SwarmState)
    (h : w.pc = Stage.stage2) (hc : s.completed = true) :
    workerBody w s = ({ w with pc := Stage.finished }, s, []) := by
  simp [workerBody, h, hc]

theorem workerBody_stage2_open (w : Worker) (s : SwarmState)
    (h : w.pc = Stage.stage2) (hc : s.completed = false) :
    workerBody w s = ({ w with pc := Stage.stage3 },
      { s with agents := update_agent s.agents w.agentId AgentStatus.negotiating (some w.slot) },
      [SwarmEvent.update w.agentId AgentStatus.negotiating (some w.slot)]) := by
  simp [workerBody, h, hc]

theorem workerBody_stage3_eq (w : Worker) (s : SwarmState)
    (h : w.pc = Stage.stage3) :
    workerBody w s = ({ w with pc := Stage.finished },
      (evaluate_complete (stage3State w s)).1,
      [SwarmEvent.update w.agentId (stage3Status w s) (some w.slot)] ++
        (evaluate_complete (stage3State w s)).2) := by
  by_cases hc : s.completed = true
  · simp [workerBody, h, hc, stage3State, stage3Status]
  · rw [Bool.not_eq_true] at hc
    by_cases hv : decide (parse_time MIN_VALID_TIME ≤ parse_time w.slot) = true
    · simp [workerBody, h, hc, hv, stage3State, stage3Status]
    · simp [workerBody, h, hc, hv, stage3State, stage3Status]

theorem process_webhook_result_spec (s : SwarmState) (m : WebhookMsg) :
    process_webhook_result s m = (s, [], 0) ∨
    ∃ st sl, ∃ s₂ : SwarmState, isTerminalStatus st = true ∧
      (st = AgentStatus.booked → truthyStr sl = true ∧
        parse_time MIN_VALID_TIME ≤ parse_time (sl.getD "")) ∧
      s₂.agents = update_agent s.agents m.agent_id st sl ∧
      s₂.completed = s.completed ∧
      s₂.completed_count = s.completed_count + 1 ∧
      s₂.provider_metadata = s.provider_metadata ∧
      process_webhook_result s m = (s₂, [SwarmEvent.update m.agent_id st sl], 1) := by
  cases hf : s.agents.find? (fun a => a.id == m.agent_id) with
  | none =>
    left
    simp [process_webhook_result, hf]
  | some agent =>
    cases hcs : (m.call_status == "failed" || m.call_status == "no_answer") with
    | true =>
      refine Or.inr ⟨AgentStatus.rejected, none,
        { s with agents := update_agent s.agents m.agent_id AgentStatus.rejected none,
                 completed_count := s.completed_count + 1 }, by decide,
        fun hcon => absurd hcon (by decide), rfl, rfl, rfl, rfl, ?_⟩
      simp [process_webhook_result, hf, hcs]
    | false =>
      cases ht : m.tool_calls.find? (fun t => t.tool_name == "book_appointment") with
      | none =>
        refine Or.inr ⟨AgentStatus.rejected, m.offered_slot,
          { s with agents := update_agent s.agents m.agent_id AgentStatus.rejected m.offered_slot,
                   completed_count := s.completed_count + 1 }, by decide,
          fun hcon => absurd hcon (by decide), rfl, rfl, rfl, rfl, ?_⟩
        simp [process_webhook_result, hf, hcs, ht]
      | some tool =>
        cases hcomp : s.completed with
        | true =>
          refine Or.inr ⟨AgentStatus.cancelled, pyOrStr tool.slot_time m.offered_slot,
            { s with agents := update_agent s.agents m.agent_id AgentStatus.cancelled
                       (pyOrStr tool.slot_time m.offered_slot),
                     completed_count := s.completed_count + 1 }, by decide,
            fun hcon => absurd hcon (by decide), rfl, hcomp, rfl, rfl, ?_⟩
          simp [process_webhook_result, hf, hcs, ht, hcomp]
        | false =>
          cases hv : (truthyStr (pyOrStr tool.slot_time m.offered_slot) &&
              decide (parse_time MIN_VALID_TIME ≤
                parse_time ((pyOrStr tool.slot_time m.offered_slot).getD "")) &&
              m.booking_confirmed) with
          | true =>
            refine Or.inr ⟨AgentStatus.booked, pyOrStr tool.slot_time m.offered_slot,
              { s with agents := update_agent s.agents m.agent_id AgentStatus.booked
                         (pyOrStr tool.slot_time m.offered_slot),
                       completed_count := s.completed_count + 1 }, by decide, ?_,
              rfl, hcomp, rfl, rfl, ?_⟩
            · intro _
              have h1 := (Bool.and_eq_true _ _).mp hv
              have h2 := (Bool.and_eq_true _ _).mp h1.1
              exact ⟨h2.1, by simpa using h2.2⟩
            · simp [process_webhook_result, hf, hcs, ht, hcomp, hv]
          | false =>
            refine Or.inr ⟨AgentStatus.rejected, pyOrStr tool.slot_time m.offered_slot,
              { s with agents := update_agent s.agents m.agent_id AgentStatus.rejected
                         (pyOrStr tool.slot_time m.offered_slot),
                       completed_count := s.completed_count + 1 }, by decide,
              fun hcon => absurd hcon (by decide), rfl, hcomp, rfl, rfl, ?_⟩
            simp [process_webhook_result, hf, hcs, ht, hcomp, hv]

theorem evaluate_complete_spec (s : SwarmState) :
    (evaluate_complete s = (s, []) ∧
      (s.completed_count < s.agents.length ∨ s.completed = true)) ∨
    (s.completed = false ∧ s.agents.length ≤ s.completed_count ∧
      ∃ s₁ : SwarmState, s₁.agents = s.agents ∧ s₁.completed = true ∧
        s₁.completed_count = s.completed_count ∧
        s₁.provider_metadata = s.provider_metadata ∧ s₁.winner = s.winner ∧
        s₁.preference_weights = s.preference_weights ∧
        evaluate_complete s = arbitrationBody s₁) := by
  by_cases hg : s.completed_count < s.agents.length ∨ s.completed = true
  · exact Or.inl ⟨evaluate_complete_guard s hg, hg⟩
  · push_neg at hg
    obtain ⟨h1, h2⟩ := hg
    refine Or.inr ⟨by simpa using h2, by omega,
      { s with completed := true }, rfl, rfl, rfl, rfl, rfl, rfl, ?_⟩
    exact evaluate_complete_body s (by omega) (by simpa using h2)

theorem countFinalEvents_append (l₁ l₂ : List SwarmEvent) :
    countFinalEvents (l₁ ++ l₂) = countFinalEvents l₁ + countFinalEvents l₂ := by
  simp [countFinalEvents, List.filter_append]

theorem countFinalEvents_update (id : String) (st : AgentStatus)
    (sl : Option String) :
    countFinalEvents [SwarmEvent.update id st sl] = 0 := rfl

theorem countFinalEvents_booked (id nm : String) (sl : String) :
    countFinalEvents [SwarmEvent.agentBooked id nm sl] = 0 := rfl

theorem countFinalEvents_final (wid : Option String) (wslot : Option String)
    (all : List ProviderAgent) (sh : List ShortlistRow) :
    countFinalEvents [SwarmEvent.raceCompleted wid wslot all sh] = 1 := rfl

theorem countFinalEvents_demote (l : List ProviderAgent) :
    countFinalEvents (l.map
      (fun a => SwarmEvent.update a.id AgentStatus.cancelled a.slotTime)) = 0 := by
  induction l with
  | nil => rfl
  | cons a r ih =>
    rw [List.map_cons, ← List.singleton_append, countFinalEvents_append, ih,
      countFinalEvents_update]

theorem terminalInLog_mono (id : String) (l₁ l₂ : List SwarmEvent)
    (h : TerminalInLog id l₁) : TerminalInLog id (l₁ ++ l₂) := by
  obtain ⟨st, sl, hst, hm⟩ := h
  exact ⟨st, sl, hst, List.mem_append_left _ hm⟩

theorem list_set_same {α : Type} (l : List α) (i : Nat) (x : α)
    (h : l[i]? = some x) : l.set i x = l := by
  induction l generalizing i with
  | nil => rfl
  | cons a r ih =>
    cases i with
    | zero =>
      simp only [List.getElem?_cons_zero, Option.some.injEq] at h
      rw [h]
      rfl
    | succ j =>
      simp only [List.getElem?_cons_succ] at h
      rw [List.set_cons_succ, ih j h]

theorem doneCount_cons (w : Worker) (ws : List Worker) :
    doneCount (w :: ws) =
      (if (w.pc == Stage.finished) = true then 1 else 0) + doneCount ws := by
  unfold doneCount
  rw [List.filter_cons]
  by_cases h : (w.pc == Stage.finished) = true
  · simp [h, Nat.add_comm]
  · simp [h]

theorem doneCount_set_eq (ws : List Worker) (i : Nat) (w w' : Worker)
    (h : ws[i]? = some w)
    (hb : (w.pc == Stage.finished) = (w'.pc == Stage.finished)) :
    doneCount (ws.set i w') = doneCount ws := by
  induction ws generalizing i with
  | nil => rfl
  | cons a r ih =>
    cases i with
    | zero =>
      simp only [List.getElem?_cons_zero, Option.some.injEq] at h
      subst h
      rw [List.set_cons_zero, doneCount_cons, doneCount_cons, hb]
    | succ j =>
      simp only [List.getElem?_cons_succ] at h
      rw [List.set_cons_succ, doneCount_cons, doneCount_cons, ih j h]

theorem doneCount_set_inc (ws : List Worker) (i : Nat) (w w' : Worker)
    (h : ws[i]? = some w) (hw : (w.pc == Stage.finished) = false)
    (hw' : (w'.pc == Stage.finished) = true) :
    doneCount (ws.set i w') = doneCount ws + 1 := by
  induction ws generalizing i with
  | nil => simp at h
  | cons a r ih =>
    cases i with
    | zero =>
      simp only [List.getElem?_cons_zero, Option.some.injEq] at h
      subst h
      rw [List.set_cons_zero, doneCount_cons, doneCount_cons, hw, hw']
      simp [Nat.add_comm]
    | succ j =>
      simp only [List.getElem?_cons_succ] at h
      rw [List.set_cons_succ, doneCount_cons, doneCount_cons, ih j h]
      omega

theorem doneCount_all_finished (ws : List Worker)
    (h : ws.all (fun w => w.pc == Stage.finished) = true) :
    doneCount ws = ws.length := by
  induction ws with
  | nil => rfl
  | cons a r ih =>
    rw [List.all_cons, Bool.and_eq_true] at h
    rw [doneCount_cons, if_pos h.1, ih h.2, List.length_cons]
    omega

theorem map_agentId_set (ws : List Worker) (i : Nat) (w w' : Worker)
    (h : ws[i]? = some w) (hid : w'.agentId = w.agentId) :
    (ws.set i w').map (·.agentId) = ws.map (·.agentId) := by
  induction ws generalizing i with
  | nil => rfl
  | cons a r ih =>
    cases i with
    | zero =>
      simp only [List.getElem?_cons_zero, Option.some.injEq] at h
      subst h
      rw [List.set_cons_zero, List.map_cons, List.map_cons, hid]
    | succ j =>
      simp only [List.getElem?_cons_succ] at h
      rw [List.set_cons_succ, List.map_cons, List.map_cons, ih j h]

theorem resolv_update (l : List ProviderAgent)
    (meta : List (String × Option ℚ × Option ℚ)) (id : String)
    (st : AgentStatus) (sl : Option String) (h : Resolv l meta) :
    Resolv (update_agent l id st sl) meta := by
  intro b hb
  rcases update_agent_mem l id st sl b hb with hmem | ⟨a, ha, _, hba⟩
  · exact h b hmem
  · subst hba
    exact h a ha

theorem resolv_map_demoteF (l : List ProviderAgent)
    (meta : List (String × Option ℚ × Option ℚ)) (wId : String)
    (h : Resolv l meta) : Resolv (l.map (demoteF wId)) meta := by
  intro b hb
  rcases List.mem_map.mp hb with ⟨a, ha, hba⟩
  subst hba
  obtain ⟨hid, _, hr, hd⟩ := demoteF_static wId a
  rw [hid, hr, hd]
  exact h a ha

theorem bookedOk_stage3 (w : Worker) (s : SwarmState) (h : BookedOk s.agents) :
    BookedOk (stage3State w s).agents := by
  refine bookedOk_update _ _ _ _ h ?_
  intro hst
  unfold stage3Status at hst
  by_cases hc : s.completed = true
  · rw [if_pos (by simp [hc])] at hst
    exact absurd hst (by decide)
  · rw [if_neg (by simp [Bool.not_eq_true] at hc; simp [hc])] at hst
    by_cases hv : decide (parse_time MIN_VALID_TIME ≤ parse_time w.slot) = true
    · rw [if_pos hv] at hst
      have hle : parse_time MIN_VALID_TIME ≤ parse_time w.slot := by simpa using hv
      have hne : w.slot ≠ "" := by
        intro hcon
        rw [hcon] at hle
        revert hle
        decide
      exact ⟨by simpa [truthyStr] using hne, by simpa using hle⟩
    · rw [if_neg hv] at hst
      exact absurd hst (by decide)

theorem stage3Status_terminal (w : Worker) (s : SwarmState) :
    isTerminalStatus (stage3Status w s) = true := by
  unfold stage3Status
  by_cases hc : s.completed = true
  · rw [if_pos (by simp [hc])]
    decide
  · rw [if_neg (by simp [Bool.not_eq_true] at hc; simp [hc])]
    by_cases hv : decide (parse_time MIN_VALID_TIME ≤ parse_time w.slot) = true
    · rw [if_pos hv]
      decide
    · rw [if_neg hv]
      decide

theorem terminal_ne_negotiating (st : AgentStatus)
    (h : isTerminalStatus st = true) : st ≠ AgentStatus.negotiating := by
  cases st <;> simp_all [isTerminalStatus]

/-- The effects of one arbitration-body execution on every quantity the
run-level invariants track. -/
theorem arbitrationBody_inv (s : SwarmState)
    (hnd : (s.agents.map (·.id)).Nodup) (hbk : BookedOk s.agents) :
    (arbitrationBody s).1.agents.map (·.id) = s.agents.map (·.id) ∧
    (arbitrationBody s).1.agents.length = s.agents.length ∧
    BookedOk (arbitrationBody s).1.agents ∧
    (arbitrationBody s).1.completed = s.completed ∧
    (arbitrationBody s).1.completed_count = s.completed_count ∧
    (arbitrationBody s).1.provider_metadata = s.provider_metadata ∧
    countFinalEvents (arbitrationBody s).2 ≤ 1 ∧
    ((arbitrationScored s).isSome = true →
      countFinalEvents (arbitrationBody s).2 = 1) ∧
    (∀ wid wslot all sl,
      SwarmEvent.raceCompleted wid wslot all sl ∈ (arbitrationBody s).2 →
      ∀ a ∈ all, a.status = AgentStatus.booked → wid = some a.id) ∧
    (∀ id sl,
      SwarmEvent.update id AgentStatus.negotiating sl ∉ (arbitrationBody s).2) ∧
    (Resolv s.agents s.provider_metadata →
      Resolv (arbitrationBody s).1.agents s.provider_metadata) := by
  cases hs : arbitrationScored s with
  | none =>
    rw [arbitrationBody_none s hs]
    refine ⟨rfl, rfl, hbk, rfl, rfl, rfl, Nat.zero_le 1, ?_, ?_, ?_, fun hr => hr⟩
    · intro hcon
      simp [hs] at hcon
    · intro wid wslot all sl hmem
      exact absurd hmem (by simp)
    · intro id sl hmem
      exact absurd hmem (by simp)
  | some scored =>
    cases hw : rank_booked_agents s.agents with
    | some w =>
      rw [arbitrationBody_win s scored w hs hw hnd]
      have hids : (s.agents.map (demoteF w.id)).map (·.id) = s.agents.map (·.id) := by
        rw [List.map_map]
        exact List.map_congr_left (fun a _ => demoteF_id w.id a)
      refine ⟨hids, by simp, bookedOk_map_demoteF w.id s.agents hbk, rfl, rfl, rfl,
        ?_, ?_, ?_, ?_, ?_⟩
      · rw [countFinalEvents_append, countFinalEvents_append,
          countFinalEvents_demote, countFinalEvents_booked, countFinalEvents_final]
      · intro _
        rw [countFinalEvents_append, countFinalEvents_append,
          countFinalEvents_demote, countFinalEvents_booked, countFinalEvents_final]
      · intro wid wslot all sl hmem a ha hst
        rcases List.mem_append.mp hmem with hmem | hmem
        · rcases List.mem_append.mp hmem with hmem | hmem
          · rcases List.mem_map.mp hmem with ⟨x, _, hx⟩
            exact absurd hx (by simp)
          · exact absurd (List.mem_singleton.mp hmem) (by simp)
        · have heq := List.mem_singleton.mp hmem
          injection heq with h1 h2 h3 h4
          subst h1
          subst h3
          have := map_demoteF_booked w.id s.agents a ha hst
          rw [this]
      · intro id sl hmem
        rcases List.mem_append.mp hmem with hmem | hmem
        · rcases List.mem_append.mp hmem with hmem | hmem
          · rcases List.mem_map.mp hmem with ⟨x, _, hx⟩
            have := (SwarmEvent.update.injEq _ _ _ _ _ _).mp hx
            exact absurd this.2.1 (by decide)
          · exact absurd (List.mem_singleton.mp hmem) (by simp)
        · exact absurd (List.mem_singleton.mp hmem) (by simp)
      · intro hr
        exact resolv_map_demoteF s.agents s.provider_metadata w.id hr
    | none =>
      rw [arbitrationBody_nowin s scored hs hw]
      refine ⟨rfl, rfl, hbk, rfl, rfl, rfl, le_refl 1, ?_, ?_, ?_,
        fun hr => hr⟩
      · intro _
        rfl
      · intro wid wslot all sl hmem a ha hst
        have heq := List.mem_singleton.mp hmem
        injection heq with h1 h2 h3 h4
        subst h3
        exfalso
        have hbs : isBookedWithSlot a = true := by
          have ht := hbk a ha hst
          unfold isBookedWithSlot
          rw [hst, ht.1]
          simp
        have hfil : a ∈ s.agents.filter isBookedWithSlot :=
          List.mem_filter.mpr ⟨ha, hbs⟩
        have hemp : s.agents.filter isBookedWithSlot = [] := by
          unfold rank_booked_agents at hw
          exact (pyMinBy_eq_none_iff _ _).mp hw
        rw [hemp] at hfil
        exact absurd hfil (by simp)
      · intro id sl hmem
        exact absurd (List.mem_singleton.mp hmem) (by simp)

/-- Invariance under configurations equal in every tracked component. -/
theorem inv_congr (ids : List String) (N : Nat) (c c' : Config)
    (hrace : c'.race = c.race) (hlog : c'.log = c.log)
    (hw : c'.workers = c.workers) (hp : c'.pendingEvals = c.pendingEvals)
    (h : Inv ids N c) : Inv ids N c' := by
  refine ⟨?_, ?_, ?_, ?_, ?_, ?_, ?_, ?_, ?_, ?_, ?_⟩
  · rw [hrace]; exact h.ids_eq
  · rw [hrace]; exact h.len_eq
  · rw [hw]; exact h.wids_eq
  · rw [hrace]; exact h.booked_ok
  · rw [hrace, hw]; exact h.count_ge_done
  · rw [hrace, hp]; exact h.count_lt_or_pend
  · rw [hrace]; exact h.count_ge_n
  · rw [hlog]; exact h.final_le
  · rw [hlog, hrace]; exact h.final_imp
  · rw [hlog]; exact h.snapshot_ok
  · rw [hlog, hw]; exact h.neg_term

theorem inv_step_eval (ids : List String) (N : Nat) (hnodup : ids.Nodup)
    (c : Config) (h : Inv ids N c) : Inv ids N (execAction c Action.runEval) := by
  by_cases hp : c.pendingEvals = 0
  · have hcfg : execAction c Action.runEval = c := by simp [execAction, hp]
    rw [hcfg]
    exact h
  · have hcfg : execAction c Action.runEval =
        { c with race := (evaluate_complete c.race).1,
                 log := c.log ++ (evaluate_complete c.race).2,
                 pendingEvals := c.pendingEvals - 1 } := by
      simp [execAction, hp]
    rw [hcfg]
    rcases evaluate_complete_spec c.race with ⟨heq, hguard⟩ |
      ⟨hcompF, hge, s₁, hs1a, hs1c, hs1cc, hs1m, hs1w, hs1p, heq⟩
    · rw [heq]
      simp only [List.append_nil]
      refine ⟨h.ids_eq, h.len_eq, h.wids_eq, h.booked_ok, h.count_ge_done, ?_,
        h.count_ge_n, h.final_le, h.final_imp, h.snapshot_ok, h.neg_term⟩
      intro hcF
      left
      rcases hguard with hguard | hguard
      · rw [h.len_eq] at hguard
        exact hguard
      · rw [hcF] at hguard
        exact absurd hguard (by simp)
    · rw [heq]
      have hnd : (s₁.agents.map (·.id)).Nodup := by
        rw [hs1a, h.ids_eq]
        exact hnodup
      have hbk : BookedOk s₁.agents := by
        rw [hs1a]
        exact h.booked_ok
      obtain ⟨hA1, hA2, hA3, hA4, hA5, hA6, hA7, hA8, hA9, hA10, hA11⟩ :=
        arbitrationBody_inv s₁ hnd hbk
      have hcompT : (arbitrationBody s₁).1.completed = true := hA4.trans hs1c
      have hfinlog : countFinalEvents c.log = 0 := by
        by_contra hcon
        have h1 : 1 ≤ countFinalEvents c.log := by omega
        rw [h.final_imp h1] at hcompF
        exact absurd hcompF (by simp)
      refine ⟨?_, ?_, h.wids_eq, hA3, ?_, ?_, ?_, ?_, ?_, ?_, ?_⟩
      · rw [hA1, hs1a]
        exact h.ids_eq
      · rw [hA2, hs1a]
        exact h.len_eq
      · intro hcon
        rw [hcompT] at hcon
        exact absurd hcon (by simp)
      · intro hcon
        rw [hcompT] at hcon
        exact absurd hcon (by simp)
      · intro _
        rw [hA5, hs1cc]
        have hlen : c.race.agents.length = N := h.len_eq
        omega
      · rw [countFinalEvents_append, hfinlog]
        omega
      · intro _
        exact hcompT
      · intro wid wslot all sl hmem
        rcases List.mem_append.mp hmem with hmem | hmem
        · exact h.snapshot_ok wid wslot all sl hmem
        · exact hA9 wid wslot all sl hmem
      · intro id sl hmem
        rcases List.mem_append.mp hmem with hmem | hmem
        · obtain ⟨jj, hj, hid, hdisj⟩ := h.neg_term id sl hmem
          refine ⟨jj, hj, hid, ?_⟩
          rcases hdisj with hdisj | hdisj
          · exact Or.inl hdisj
          · exact Or.inr (terminalInLog_mono id c.log _ hdisj)
        · exact absurd hmem (hA10 id sl)

theorem inv_step_deliver (ids : List String) (N : Nat) (c : Config) (j : Nat)
    (h : Inv ids N c) : Inv ids N (execAction c (Action.deliver j)) := by
  cases hj : c.inbox[j]? with
  | none =>
    have hcfg : execAction c (Action.deliver j) = c := by simp [execAction, hj]
    rw [hcfg]
    exact h
  | some m =>
    by_cases hgate : (c.race.registered && !c.race.completed) = true
    · have hcfg : execAction c (Action.deliver j) =
          { c with race := (process_webhook_result c.race m).1,
                   log := c.log ++ (process_webhook_result c.race m).2.1,
                   pendingEvals := c.pendingEvals + (process_webhook_result c.race m).2.2,
                   inbox := c.inbox.eraseIdx j } := by
        simp [execAction, hj, hgate]
      rw [hcfg]
      have hcompF : c.race.completed = false := by
        have h2 := ((Bool.and_eq_true _ _).mp hgate).2
        simpa using h2
      rcases process_webhook_result_spec c.race m with hnoop |
        ⟨st, sl, s₂, hterm, hbook, hs2a, hs2c, hs2cc, hs2m, heq⟩
      · rw [hnoop]
        exact inv_congr ids N c _ rfl (by simp) rfl rfl h
      · rw [heq]
        refine ⟨?_, ?_, h.wids_eq, ?_, ?_, ?_, ?_, ?_, ?_, ?_, ?_⟩
        · show s₂.agents.map (·.id) = ids
          rw [hs2a, update_agent_ids]
          exact h.ids_eq
        · show s₂.agents.length = N
          rw [hs2a, update_agent_length]
          exact h.len_eq
        · show BookedOk s₂.agents
          rw [hs2a]
          exact bookedOk_update _ _ _ _ h.booked_ok hbook
        · intro _
          show doneCount c.workers ≤ s₂.completed_count
          rw [hs2cc]
          have h2 := h.count_ge_done hcompF
          omega
        · intro _
          right
          left
          show 1 ≤ c.pendingEvals + 1
          omega
        · intro hcon
          rw [hs2c, hcompF] at hcon
          exact absurd hcon (by simp)
        · rw [countFinalEvents_append, countFinalEvents_update]
          have h2 := h.final_le
          omega
        · intro h1
          rw [countFinalEvents_append, countFinalEvents_update] at h1
          rw [hs2c]
          exact h.final_imp (by omega)
        · intro wid wslot all sl2 hmem a ha hst
          rcases List.mem_append.mp hmem with hmem | hmem
          · exact h.snapshot_ok _ _ _ _ hmem a ha hst
          · have h2 := List.mem_singleton.mp hmem
            exact absurd h2 (by simp)
        · intro id sl2 hmem
          rcases List.mem_append.mp hmem with hmem | hmem
          · obtain ⟨jj, hjlt, hid, hdisj⟩ := h.neg_term id sl2 hmem
            refine ⟨jj, hjlt, hid, ?_⟩
            rcases hdisj with hdisj | hdisj
            · exact Or.inl hdisj
            · exact Or.inr (terminalInLog_mono id c.log _ hdisj)
          · have h2 := List.mem_singleton.mp hmem
            injection h2 with e1 e2 e3
            rw [← e2] at hterm
            exact absurd hterm (by decide)
    · have hcfg : execAction c (Action.deliver j) =
          { c with inbox := c.inbox.eraseIdx j } := by
        simp [execAction, hj, hgate]
      rw [hcfg]
      exact inv_congr ids N c _ rfl rfl rfl rfl h

theorem negTerm_step (c : Config) (i : Nat) (w w' : Worker)
    (log' : List SwarmEvent) (hwi : c.workers[i]? = some w)
    (hid' : w'.agentId = w.agentId)
    (hmono : ∀ id, TerminalInLog id c.log → TerminalInLog id log')
    (hold : w.pc = Stage.stage3 → w'.pc = Stage.stage3 ∨ TerminalInLog w.agentId log')
    (id : String)
    (hIH : ∃ j : Nat, ∃ hj : j < c.workers.length,
      (c.workers.get ⟨j, hj⟩).agentId = id ∧
        ((c.workers.get ⟨j, hj⟩).pc = Stage.stage3 ∨ TerminalInLog id c.log)) :
    ∃ j : Nat, ∃ hj : j < (c.workers.set i w').length,
      ((c.workers.set i w').get ⟨j, hj⟩).agentId = id ∧
        (((c.workers.set i w').get ⟨j, hj⟩).pc = Stage.stage3 ∨
          TerminalInLog id log') := by
  obtain ⟨j, hj, hid, hdisj⟩ := hIH
  have hjlt : j < (c.workers.set i w').length := by
    rw [List.length_set]
    exact hj
  obtain ⟨hlt, hget⟩ := List.getElem?_eq_some.mp hwi
  by_cases hji : i = j
  · subst hji
    have hwid : w.agentId = id := by
      rw [List.get_eq_getElem, hget] at hid
      exact hid
    refine ⟨i, hjlt, ?_, ?_⟩
    · rw [List.get_eq_getElem, List.getElem_set_self, hid', hwid]
    · rcases hdisj with hdisj | hdisj
      · have hw3 : w.pc = Stage.stage3 := by
          rw [List.get_eq_getElem, hget] at hdisj
          exact hdisj
        rcases hold hw3 with h1 | h1
        · left
          rw [List.get_eq_getElem, List.getElem_set_self]
          exact h1
        · right
          rw [← hwid]
          exact h1
      · exact Or.inr (hmono id hdisj)
  · refine ⟨j, hjlt, ?_, ?_⟩
    · rw [List.get_eq_getElem, List.getElem_set_ne hji]
      rw [List.get_eq_getElem] at hid
      exact hid
    · rcases hdisj with hdisj | hdisj
      · left
        rw [List.get_eq_getElem, List.getElem_set_ne hji]
        rw [List.get_eq_getElem] at hdisj
        exact hdisj
      · exact Or.inr (hmono id hdisj)

theorem inv_step_worker (ids : List String) (N : Nat) (hnodup : ids.Nodup)
    (c : Config) (i : Nat) (h : Inv ids N c) :
    Inv ids N (execAction c (Action.workerStep i)) := by
  cases hwi : c.workers[i]? with
  | none =>
    have hcfg : execAction c (Action.workerStep i) = c := by simp [execAction, hwi]
    rw [hcfg]
    exact h
  | some w =>
    obtain ⟨hlt, hget⟩ := List.getElem?_eq_some.mp hwi
    cases hpc : w.pc with
    | finished =>
      have hcfg : execAction c (Action.workerStep i) = c := by
        simp [execAction, hwi, workerBody_finished w c.race hpc,
          list_set_same _ _ _ hwi]
      rw [hcfg]
      exact h
    | stage1 =>
      cases hcomp : c.race.completed with
      | true =>
        have hcfg : execAction c (Action.workerStep i) =
            { c with workers := c.workers.set i { w with pc := Stage.finished } } := by
          simp [execAction, hwi, workerBody_stage1_completed w c.race hpc hcomp]
        rw [hcfg]
        refine ⟨h.ids_eq, h.len_eq, ?_, h.booked_ok, ?_, ?_, h.count_ge_n,
          h.final_le, h.final_imp, h.snapshot_ok, ?_⟩
        · show (c.workers.set i { w with pc := Stage.finished }).map (·.agentId) = ids
          rw [map_agentId_set c.workers i w { w with pc := Stage.finished } hwi rfl]
          exact h.wids_eq
        · intro hcon
          rw [hcomp] at hcon
          exact absurd hcon (by simp)
        · intro hcon
          rw [hcomp] at hcon
          exact absurd hcon (by simp)
        · intro id sl hmem
          refine negTerm_step c i w { w with pc := Stage.finished } c.log hwi rfl
            (fun _ ht => ht) ?_ id (h.neg_term id sl hmem)
          intro h3
          rw [hpc] at h3
          exact absurd h3 (by decide)
      | false =>
        have hcfg : execAction c (Action.workerStep i) =
            { c with race := { c.race with agents := update_agent c.race.agents w.agentId AgentStatus.calling none },
                     workers := c.workers.set i { w with pc := Stage.stage2 },
                     log := c.log ++ [SwarmEvent.update w.agentId AgentStatus.calling none] } := by
          simp [execAction, hwi, workerBody_stage1_open w c.race hpc hcomp]
        rw [hcfg]
        refine ⟨?_, ?_, ?_, ?_, ?_, ?_, ?_, ?_, ?_, ?_, ?_⟩
        · show (update_agent c.race.agents w.agentId AgentStatus.calling none).map (·.id) = ids
          rw [update_agent_ids]
          exact h.ids_eq
        · show (update_agent c.race.agents w.agentId AgentStatus.calling none).length = N
          rw [update_agent_length]
          exact h.len_eq
        · show (c.workers.set i { w with pc := Stage.stage2 }).map (·.agentId) = ids
          rw [map_agentId_set c.workers i w { w with pc := Stage.stage2 } hwi rfl]
          exact h.wids_eq
        · refine bookedOk_update _ _ _ _ h.booked_ok ?_
          intro hcon
          exact absurd hcon (by decide)
        · intro _
          show doneCount (c.workers.set i { w with pc := Stage.stage2 }) ≤
            c.race.completed_count
          rw [doneCount_set_eq c.workers i w _ hwi (by rw [hpc]; rfl)]
          exact h.count_ge_done hcomp
        · intro _
          exact h.count_lt_or_pend hcomp
        · intro hcon
          rw [hcomp] at hcon
          exact absurd hcon (by simp)
        · rw [countFinalEvents_append, countFinalEvents_update]
          have h2 := h.final_le
          omega
        · intro h1
          rw [countFinalEvents_append, countFinalEvents_update] at h1
          exact h.final_imp (by omega)
        · intro wid wslot all sl hmem a ha hst
          rcases List.mem_append.mp hmem with hmem | hmem
          · exact h.snapshot_ok _ _ _ _ hmem a ha hst
          · exact absurd (List.mem_singleton.mp hmem) (by simp)
        · intro id sl hmem
          rcases List.mem_append.mp hmem with hmem | hmem
          · refine negTerm_step c i w { w with pc := Stage.stage2 } _ hwi rfl
              (fun id2 ht => terminalInLog_mono id2 c.log _ ht) ?_ id
              (h.neg_term id sl hmem)
            intro h3
            rw [hpc] at h3
            exact absurd h3 (by decide)
          · have h2 := List.mem_singleton.mp hmem
            injection h2 with e1 e2 e3
            exact absurd e2 (by decide)
    | stage2 =>
      cases hcomp : c.race.completed with
      | true =>
        have hcfg : execAction c (Action.workerStep i) =
            { c with workers := c.workers.set i { w with pc := Stage.finished } } := by
          simp [execAction, hwi, workerBody_stage2_completed w c.race hpc hcomp]
        rw [hcfg]
        refine ⟨h.ids_eq, h.len_eq, ?_, h.booked_ok, ?_, ?_, h.count_ge_n,
          h.final_le, h.final_imp, h.snapshot_ok, ?_⟩
        · show (c.workers.set i { w with pc := Stage.finished }).map (·.agentId) = ids
          rw [map_agentId_set c.workers i w { w with pc := Stage.finished } hwi rfl]
          exact h.wids_eq
        · intro hcon
          rw [hcomp] at hcon
          exact absurd hcon (by simp)
        · intro hcon
          rw [hcomp] at hcon
          exact absurd hcon (by simp)
        · intro id sl hmem
          refine negTerm_step c i w { w with pc := Stage.finished } c.log hwi rfl
            (fun _ ht => ht) ?_ id (h.neg_term id sl hmem)
          intro h3
          rw [hpc] at h3
          exact absurd h3 (by decide)
      | false =>
        have hcfg : execAction c (Action.workerStep i) =
            { c with race := { c.race with agents := update_agent c.race.agents w.agentId AgentStatus.negotiating (some w.slot) },
                     workers := c.workers.set i { w with pc := Stage.stage3 },
                     log := c.log ++ [SwarmEvent.update w.agentId AgentStatus.negotiating (some w.slot)] } := by
          simp [execAction, hwi, workerBody_stage2_open w c.race hpc hcomp]
        rw [hcfg]
        refine ⟨?_, ?_, ?_, ?_, ?_, ?_, ?_, ?_, ?_, ?_, ?_⟩
        · show (update_agent c.race.agents w.agentId AgentStatus.negotiating
            (some w.slot)).map (·.id) = ids
          rw [update_agent_ids]
          exact h.ids_eq
        · show (update_agent c.race.agents w.agentId AgentStatus.negotiating
            (some w.slot)).length = N
          rw [update_agent_length]
          exact h.len_eq
        · show (c.workers.set i { w with pc := Stage.stage3 }).map (·.agentId) = ids
          rw [map_agentId_set c.workers i w { w with pc := Stage.stage3 } hwi rfl]
          exact h.wids_eq
        · refine bookedOk_update _ _ _ _ h.booked_ok ?_
          intro hcon
          exact absurd hcon (by decide)
        · intro _
          show doneCount (c.workers.set i { w with pc := Stage.stage3 }) ≤
            c.race.completed_count
          rw [doneCount_set_eq c.workers i w _ hwi (by rw [hpc]; rfl)]
          exact h.count_ge_done hcomp
        · intro _
          exact h.count_lt_or_pend hcomp
        · intro hcon
          rw [hcomp] at hcon
          exact absurd hcon (by simp)
        · rw [countFinalEvents_append, countFinalEvents_update]
          have h2 := h.final_le
          omega
        · intro h1
          rw [countFinalEvents_append, countFinalEvents_update] at h1
          exact h.final_imp (by omega)
        · intro wid wslot all sl hmem a ha hst
          rcases List.mem_append.mp hmem with hmem | hmem
          · exact h.snapshot_ok _ _ _ _ hmem a ha hst
          · exact absurd (List.mem_singleton.mp hmem) (by simp)
        · intro id sl hmem
          rcases List.mem_append.mp hmem with hmem | hmem
          · refine negTerm_step c i w { w with pc := Stage.stage3 } _ hwi rfl
              (fun id2 ht => terminalInLog_mono id2 c.log _ ht) ?_ id
              (h.neg_term id sl hmem)
            intro _
            left
            rfl
          · have h2 := List.mem_singleton.mp hmem
            injection h2 with e1 e2 e3
            subst e1
            refine ⟨i, by rw [List.length_set]; exact hlt, ?_, Or.inl ?_⟩
            · rw [List.get_eq_getElem, List.getElem_set_self]
            · rw [List.get_eq_getElem, List.getElem_set_self]
    | stage3 =>
      have hcfg : execAction c (Action.workerStep i) =
          { c with race := (evaluate_complete (stage3State w c.race)).1,
                   workers := c.workers.set i { w with pc := Stage.finished },
                   log := c.log ++
                     (SwarmEvent.update w.agentId (stage3Status w c.race) (some w.slot) ::
                       (evaluate_complete (stage3State w c.race)).2) } := by
        simp [execAction, hwi, workerBody_stage3_eq w c.race hpc]
      rw [hcfg]
      have hs3a : (stage3State w c.race).agents =
          update_agent c.race.agents w.agentId (stage3Status w c.race) (some w.slot) := rfl
      have hs3c : (stage3State w c.race).completed = c.race.completed := rfl
      have hs3cc : (stage3State w c.race).completed_count =
          c.race.completed_count + 1 := rfl
      have hs3ids : (stage3State w c.race).agents.map (·.id) = ids := by
        rw [hs3a, update_agent_ids]
        exact h.ids_eq
      have hs3len : (stage3State w c.race).agents.length = N := by
        rw [hs3a, update_agent_length]
        exact h.len_eq
      have hs3bk : BookedOk (stage3State w c.race).agents :=
        bookedOk_stage3 w c.race h.booked_ok
      have hterm3 : ∀ tail : List SwarmEvent, TerminalInLog w.agentId (c.log ++
          (SwarmEvent.update w.agentId (stage3Status w c.race) (some w.slot) :: tail)) := by
        intro tail
        refine ⟨stage3Status w c.race, some w.slot, stage3Status_terminal w c.race, ?_⟩
        exact List.mem_append_right _ (List.mem_cons_self _ _)
      have hdone : doneCount (c.workers.set i { w with pc := Stage.finished }) =
          doneCount c.workers + 1 :=
        doneCount_set_inc c.workers i w _ hwi (by rw [hpc]; rfl) rfl
      rcases evaluate_complete_spec (stage3State w c.race) with ⟨heq, hguard⟩ |
        ⟨hcompF, hge, s₁, hs1a, hs1c, hs1cc, hs1m, hs1w, hs1p, heq⟩
      · rw [heq]
        have hz : countFinalEvents (stage3State w c.race, ([] : List SwarmEvent)).2 = 0 := rfl
        refine ⟨hs3ids, hs3len, ?_, hs3bk, ?_, ?_, ?_, ?_, ?_, ?_, ?_⟩
        · show (c.workers.set i { w with pc := Stage.finished }).map (·.agentId) = ids
          rw [map_agentId_set c.workers i w { w with pc := Stage.finished } hwi rfl]
          exact h.wids_eq
        · intro hcon
          rw [hs3c] at hcon
          rw [hdone, hs3cc]
          have h2 := h.count_ge_done hcon
          omega
        · intro hcon
          rw [hs3c] at hcon
          rcases hguard with hguard | hguard
          · left
            rw [hs3cc, hs3len] at hguard
            rw [hs3cc]
            exact hguard
          · rw [hs3c, hcon] at hguard
            exact absurd hguard (by simp)
        · intro hcon
          rw [hs3c] at hcon
          have h2 := h.count_ge_n hcon
          rw [hs3cc]
          omega
        · rw [← List.singleton_append, countFinalEvents_append,
            countFinalEvents_append, countFinalEvents_update]
          have h2 := h.final_le
          omega
        · intro h1
          rw [← List.singleton_append, countFinalEvents_append,
            countFinalEvents_append, countFinalEvents_update] at h1
          rw [hs3c]
          refine h.final_imp ?_
          omega
        · intro wid wslot all sl hmem a ha hst
          rcases List.mem_append.mp hmem with hmem | hmem
          · exact h.snapshot_ok _ _ _ _ hmem a ha hst
          · rcases List.mem_cons.mp hmem with hmem | hmem
            · exact absurd hmem (by simp)
            · exact absurd hmem (by simp)
        · intro id sl hmem
          rcases List.mem_append.mp hmem with hmem | hmem
          · refine negTerm_step c i w { w with pc := Stage.finished } _ hwi rfl
              (fun id2 ht => terminalInLog_mono id2 c.log _ ht) ?_ id
              (h.neg_term id sl hmem)
            intro _
            right
            exact hterm3 _
          · rcases List.mem_cons.mp hmem with hmem | hmem
            · injection hmem with e1 e2 e3
              have := stage3Status_terminal w c.race
              rw [← e2] at this
              exact absurd this (by decide)
            · exact absurd hmem (by simp)
      · rw [heq]
        have hnd1 : (s₁.agents.map (·.id)).Nodup := by
          rw [hs1a, hs3ids]
          exact hnodup
        have hbk1 : BookedOk s₁.agents := by
          rw [hs1a]
          exact hs3bk
        obtain ⟨hA1, hA2, hA3, hA4, hA5, hA6, hA7, hA8, hA9, hA10, hA11⟩ :=
          arbitrationBody_inv s₁ hnd1 hbk1
        have hcompT : (arbitrationBody s₁).1.completed = true := hA4.trans hs1c
        have hcfF : c.race.completed = false := by
          rw [hs3c] at hcompF
          exact hcompF
        have hfinlog : countFinalEvents c.log = 0 := by
          by_contra hcon
          have h1 : 1 ≤ countFinalEvents c.log := by omega
          rw [h.final_imp h1] at hcfF
          exact absurd hcfF (by simp)
        refine ⟨?_, ?_, ?_, hA3, ?_, ?_, ?_, ?_, ?_, ?_, ?_⟩
        · rw [hA1, hs1a]
          exact hs3ids
        · rw [hA2, hs1a]
          exact hs3len
        · show (c.workers.set i { w with pc := Stage.finished }).map (·.agentId) = ids
          rw [map_agentId_set c.workers i w { w with pc := Stage.finished } hwi rfl]
          exact h.wids_eq
        · intro hcon
          rw [hcompT] at hcon
          exact absurd hcon (by simp)
        · intro hcon
          rw [hcompT] at hcon
          exact absurd hcon (by simp)
        · intro _
          rw [hA5, hs1cc, hs3cc]
          rw [hs3len] at hge
          rw [hs3cc] at hge
          omega
        · rw [← List.singleton_append, countFinalEvents_append,
            countFinalEvents_append, countFinalEvents_update, hfinlog]
          omega
        · intro _
          exact hcompT
        · intro wid wslot all sl hmem a ha hst
          rcases List.mem_append.mp hmem with hmem | hmem
          · exact h.snapshot_ok _ _ _ _ hmem a ha hst
          · rcases List.mem_cons.mp hmem with hmem | hmem
            · exact absurd hmem (by simp)
            · exact hA9 _ _ _ _ hmem a ha hst
        · intro id sl hmem
          rcases List.mem_append.mp hmem with hmem | hmem
          · refine negTerm_step c i w { w with pc := Stage.finished } _ hwi rfl
              (fun id2 ht => terminalInLog_mono id2 c.log _ ht) ?_ id
              (h.neg_term id sl hmem)
            intro _
            right
            exact hterm3 _
          · rcases List.mem_cons.mp hmem with hmem | hmem
            · injection hmem with e1 e2 e3
              have h4 := stage3Status_terminal w c.race
              rw [← e2] at h4
              exact absurd h4 (by decide)
            · exact absurd hmem (hA10 id sl)

theorem inv_step (ids : List String) (N : Nat) (hnodup : ids.Nodup)
    (c : Config) (act : Action) (h : Inv ids N c) :
    Inv ids N (execAction c act) := by
  cases act with
  | workerStep i => exact inv_step_worker ids N hnodup c i h
  | deliver j => exact inv_step_deliver ids N c j h
  | runEval => exact inv_step_eval ids N hnodup c h

/-- The extended invariant is preserved by every scheduler action: scoring
inputs stay resolvable and, once the completion flag is set, the final event
has been emitted exactly once. -/
theorem invR_step (ids : List String) (N : Nat) (hnodup : ids.Nodup)
    (c : Config) (act : Action) (h : InvR ids N c) :
    InvR ids N (execAction c act) := by
  have hbase := inv_step ids N hnodup c act h.base
  cases act with
  | workerStep i =>
    cases hwi : c.workers[i]? with
    | none =>
      have hcfg : execAction c (Action.workerStep i) = c := by simp [execAction, hwi]
      rw [hcfg]
      exact h
    | some w =>
      cases hpc : w.pc with
      | finished =>
        have hcfg : execAction c (Action.workerStep i) = c := by
          simp [execAction, hwi, workerBody_finished w c.race hpc,
            list_set_same _ _ _ hwi]
        rw [hcfg]
        exact h
      | stage1 =>
        cases hcomp : c.race.completed with
        | true =>
          have hcfg : execAction c (Action.workerStep i) =
              { c with workers := c.workers.set i { w with pc := Stage.finished } } := by
            simp [execAction, hwi, workerBody_stage1_completed w c.race hpc hcomp]
          rw [hcfg] at hbase ⊢
          exact ⟨hbase, h.resolv, h.comp_iff⟩
        | false =>
          have hcfg : execAction c (Action.workerStep i) =
              { c with race := { c.race with agents := update_agent c.race.agents w.agentId AgentStatus.calling none },
                       workers := c.workers.set i { w with pc := Stage.stage2 },
                       log := c.log ++ [SwarmEvent.update w.agentId AgentStatus.calling none] } := by
            simp [execAction, hwi, workerBody_stage1_open w c.race hpc hcomp]
          rw [hcfg] at hbase ⊢
          refine ⟨hbase, ?_, ?_⟩
          · exact resolv_update c.race.agents c.race.provider_metadata w.agentId
              AgentStatus.calling none h.resolv
          · intro hcon
            have hcon' : c.race.completed = true := hcon
            rw [hcomp] at hcon'
            exact absurd hcon' (by simp)
      | stage2 =>
        cases hcomp : c.race.completed with
        | true =>
          have hcfg : execAction c (Action.workerStep i) =
              { c with workers := c.workers.set i { w with pc := Stage.finished } } := by
            simp [execAction, hwi, workerBody_stage2_completed w c.race hpc hcomp]
          rw [hcfg] at hbase ⊢
          exact ⟨hbase, h.resolv, h.comp_iff⟩
        | false =>
          have hcfg : execAction c (Action.workerStep i) =
              { c with race := { c.race with agents := update_agent c.race.agents w.agentId AgentStatus.negotiating (some w.slot) },
                       workers := c.workers.set i { w with pc := Stage.stage3 },
                       log := c.log ++ [SwarmEvent.update w.agentId AgentStatus.negotiating (some w.slot)] } := by
            simp [execAction, hwi, workerBody_stage2_open w c.race hpc hcomp]
          rw [hcfg] at hbase ⊢
          refine ⟨hbase, ?_, ?_⟩
          · exact resolv_update c.race.agents c.race.provider_metadata w.agentId
              AgentStatus.negotiating (some w.slot) h.resolv
          · intro hcon
            have hcon' : c.race.completed = true := hcon
            rw [hcomp] at hcon'
            exact absurd hcon' (by simp)
      | stage3 =>
        have hcfg : execAction c (Action.workerStep i) =
            { c with race := (evaluate_complete (stage3State w c.race)).1,
                     workers := c.workers.set i { w with pc := Stage.finished },
                     log := c.log ++
                       (SwarmEvent.update w.agentId (stage3Status w c.race) (some w.slot) ::
                         (evaluate_complete (stage3State w c.race)).2) } := by
          simp [execAction, hwi, workerBody_stage3_eq w c.race hpc]
        rw [hcfg] at hbase ⊢
        have hs3a : (stage3State w c.race).agents =
            update_agent c.race.agents w.agentId (stage3Status w c.race) (some w.slot) := rfl
        have hs3m : (stage3State w c.race).provider_metadata =
            c.race.provider_metadata := rfl
        rcases evaluate_complete_spec (stage3State w c.race) with ⟨heq, hguard⟩ |
          ⟨hcompF, hge, s₁, hs1a, hs1c, hs1cc, hs1m, hs1w, hs1p, heq⟩
        · rw [heq] at hbase ⊢
          refine ⟨hbase, ?_, ?_⟩
          · show Resolv (stage3State w c.race).agents
              (stage3State w c.race).provider_metadata
            rw [hs3a, hs3m]
            exact resolv_update c.race.agents c.race.provider_metadata w.agentId
              (stage3Status w c.race) (some w.slot) h.resolv
          · intro hcon
            have hcon' : c.race.completed = true := hcon
            have h1 := h.comp_iff hcon'
            have hz : countFinalEvents
                (stage3State w c.race, ([] : List SwarmEvent)).2 = 0 := rfl
            show countFinalEvents (c.log ++
              (SwarmEvent.update w.agentId (stage3Status w c.race) (some w.slot) ::
                (stage3State w c.race, ([] : List SwarmEvent)).2)) = 1
            rw [← List.singleton_append, countFinalEvents_append,
              countFinalEvents_append, countFinalEvents_update, hz]
            omega
        · rw [heq] at hbase ⊢
          have hres1 : Resolv s₁.agents s₁.provider_metadata := by
            rw [hs1a, hs1m, hs3a, hs3m]
            exact resolv_update c.race.agents c.race.provider_metadata w.agentId
              (stage3Status w c.race) (some w.slot) h.resolv
          have hnd1 : (s₁.agents.map (·.id)).Nodup := by
            rw [hs1a, hs3a, update_agent_ids, h.base.ids_eq]
            exact hnodup
          have hbk1 : BookedOk s₁.agents := by
            rw [hs1a]
            exact bookedOk_stage3 w c.race h.base.booked_ok
          obtain ⟨hA1, hA2, hA3, hA4, hA5, hA6, hA7, hA8, hA9, hA10, hA11⟩ :=
            arbitrationBody_inv s₁ hnd1 hbk1
          refine ⟨hbase, ?_, ?_⟩
          · show Resolv (arbitrationBody s₁).1.agents
              (arbitrationBody s₁).1.provider_metadata
            rw [hA6]
            exact hA11 hres1
          · intro _
            have hcfF : c.race.completed = false := hcompF
            have hfinlog : countFinalEvents c.log = 0 := by
              by_contra hcon
              have h1 : 1 ≤ countFinalEvents c.log := by omega
              rw [h.base.final_imp h1] at hcfF
              exact absurd hcfF (by simp)
            have h2 := hA8 (arbitrationScored_isSome s₁ hres1)
            show countFinalEvents (c.log ++
              (SwarmEvent.update w.agentId (stage3Status w c.race) (some w.slot) ::
                (arbitrationBody s₁).2)) = 1
            rw [← List.singleton_append, countFinalEvents_append,
              countFinalEvents_append, countFinalEvents_update]
            omega
  | deliver j =>
    cases hj : c.inbox[j]? with
    | none =>
      have hcfg : execAction c (Action.deliver j) = c := by simp [execAction, hj]
      rw [hcfg]
      exact h
    | some m =>
      by_cases hgate : (c.race.registered && !c.race.completed) = true
      · have hcfg : execAction c (Action.deliver j) =
            { c with race := (process_webhook_result c.race m).1,
                     log := c.log ++ (process_webhook_result c.race m).2.1,
                     pendingEvals := c.pendingEvals + (process_webhook_result c.race m).2.2,
                     inbox := c.inbox.eraseIdx j } := by
          simp [execAction, hj, hgate]
        rw [hcfg] at hbase ⊢
        have hcompF : c.race.completed = false := by
          have h2 := ((Bool.and_eq_true _ _).mp hgate).2
          simpa using h2
        rcases process_webhook_result_spec c.race m with hnoop |
          ⟨st, sl, s₂, hterm, hbook, hs2a, hs2c, hs2cc, hs2m, heq⟩
        · rw [hnoop] at hbase ⊢
          refine ⟨hbase, h.resolv, ?_⟩
          intro hcon
          have hcon' : c.race.completed = true := hcon
          rw [hcompF] at hcon'
          exact absurd hcon' (by simp)
        · rw [heq] at hbase ⊢
          refine ⟨hbase, ?_, ?_⟩
          · show Resolv s₂.agents s₂.provider_metadata
            rw [hs2a, hs2m]
            exact resolv_update c.race.agents c.race.provider_metadata m.agent_id
              st sl h.resolv
          · intro hcon
            have hcon' : s₂.completed = true := hcon
            rw [hs2c, hcompF] at hcon'
            exact absurd hcon' (by simp)
      · have hcfg : execAction c (Action.deliver j) =
            { c with inbox := c.inbox.eraseIdx j } := by
          simp [execAction, hj, hgate]
        rw [hcfg] at hbase ⊢
        exact ⟨hbase, h.resolv, h.comp_iff⟩
  | runEval =>
    by_cases hp : c.pendingEvals = 0
    · have hcfg : execAction c Action.runEval = c := by simp [execAction, hp]
      rw [hcfg]
      exact h
    · have hcfg : execAction c Action.runEval =
          { c with race := (evaluate_complete c.race).1,
                   log := c.log ++ (evaluate_complete c.race).2,
                   pendingEvals := c.pendingEvals - 1 } := by
        simp [execAction, hp]
      rw [hcfg] at hbase ⊢
      rcases evaluate_complete_spec c.race with ⟨heq, hguard⟩ |
        ⟨hcompF, hge, s₁, hs1a, hs1c, hs1cc, hs1m, hs1w, hs1p, heq⟩
      · rw [heq] at hbase ⊢
        refine ⟨hbase, h.resolv, ?_⟩
        intro hcon
        have hcon' : c.race.completed = true := hcon
        have h1 := h.comp_iff hcon'
        have hz : countFinalEvents (c.race, ([] : List SwarmEvent)).2 = 0 := rfl
        show countFinalEvents (c.log ++ (c.race, ([] : List SwarmEvent)).2) = 1
        rw [countFinalEvents_append, hz]
        omega
      · rw [heq] at hbase ⊢
        have hres1 : Resolv s₁.agents s₁.provider_metadata := by
          rw [hs1a, hs1m]
          exact h.resolv
        have hnd1 : (s₁.agents.map (·.id)).Nodup := by
          rw [hs1a, h.base.ids_eq]
          exact hnodup
        have hbk1 : BookedOk s₁.agents := by
          rw [hs1a]
          exact h.base.booked_ok
        obtain ⟨hA1, hA2, hA3, hA4, hA5, hA6, hA7, hA8, hA9, hA10, hA11⟩ :=
          arbitrationBody_inv s₁ hnd1 hbk1
        refine ⟨hbase, ?_, ?_⟩
        · show Resolv (arbitrationBody s₁).1.agents
            (arbitrationBody s₁).1.provider_metadata
          rw [hA6]
          exact hA11 hres1
        · intro _
          have hfinlog : countFinalEvents c.log = 0 := by
            by_contra hcon
            have h1 : 1 ≤ countFinalEvents c.log := by omega
            rw [h.base.final_imp h1] at hcompF
            exact absurd hcompF (by simp)
          have h2 := hA8 (arbitrationScored_isSome s₁ hres1)
          show countFinalEvents (c.log ++ (arbitrationBody s₁).2) = 1
          rw [countFinalEvents_append]
          omega

/-- The base invariant is preserved along any run. -/
theorem inv_run (ids : List String) (N : Nat) (hnodup : ids.Nodup)
    (acts : List Action) (c : Config) (h : Inv ids N c) :
    Inv ids N (run c acts) := by
  induction acts generalizing c with
  | nil => exact h
  | cons a rest ih => exact ih (execAction c a) (inv_step ids N hnodup c a h)

/-- The extended invariant is preserved along any run. -/
theorem invR_run (ids : List String) (N : Nat) (hnodup : ids.Nodup)
    (acts : List Action) (c : Config) (h : InvR ids N c) :
    InvR ids N (run c acts) := by
  induction acts generalizing c with
  | nil => exact h
  | cons a rest ih => exact ih (execAction c a) (invR_step ids N hnodup c a h)

theorem doneCount_zero (ws : List Worker)
    (h : ∀ w ∈ ws, (w.pc == Stage.finished) = false) : doneCount ws = 0 := by
  induction ws with
  | nil => rfl
  | cons a r ih =>
    rw [doneCount_cons, h a (List.mem_cons_self a r),
      ih (fun w hw => h w (List.mem_cons_of_mem a hw))]
    simp

theorem initAgents_ids (items : List (ProviderAgent × String)) :
    (initAgents items).map (·.id) = items.map (fun p => p.1.id) := by
  unfold initAgents
  rw [List.map_map]
  exact List.map_congr_left (fun p _ => rfl)

theorem initWorkers_ids (items : List (ProviderAgent × String)) :
    (initWorkers items).map (·.agentId) = items.map (fun p => p.1.id) := by
  unfold initWorkers
  rw [List.map_map]
  exact List.map_congr_left (fun p _ => rfl)

/-- The base invariant holds at the initial configuration of any race, with
`ids` the candidate ids and `N` the candidate count. -/
theorem inv_init (items : List (ProviderAgent × String))
    (meta : List (String × Option ℚ × Option ℚ))
    (weights : Option PreferenceWeights) (msgs : List WebhookMsg) :
    Inv (items.map (fun p => p.1.id)) items.length
      (initConfig items meta weights msgs) := by
  have hagents : (initConfig items meta weights msgs).race.agents =
      initAgents items := rfl
  have hworkers : (initConfig items meta weights msgs).workers =
      initWorkers items := rfl
  have hlog : (initConfig items meta weights msgs).log =
      [SwarmEvent.start (initAgents items)] := rfl
  have hfin : countFinalEvents (initConfig items meta weights msgs).log = 0 := rfl
  refine ⟨?_, ?_, ?_, ?_, ?_, ?_, ?_, ?_, ?_, ?_, ?_⟩
  · rw [hagents]
    exact initAgents_ids items
  · rw [hagents]
    unfold initAgents
    rw [List.length_map]
  · rw [hworkers]
    exact initWorkers_ids items
  · intro a ha hst
    rw [hagents] at ha
    unfold initAgents at ha
    rcases List.mem_map.mp ha with ⟨p, _, hpa⟩
    rw [← hpa] at hst
    simp at hst
  · intro _
    rw [hworkers]
    have hd : doneCount (initWorkers items) = 0 := by
      refine doneCount_zero _ ?_
      intro w hw
      unfold initWorkers at hw
      rcases List.mem_map.mp hw with ⟨p, _, hpw⟩
      rw [← hpw]
      rfl
    rw [hd]
    exact Nat.zero_le _
  · intro _
    show 0 < items.length ∨ 1 ≤ 0 ∨ items.length = 0
    rcases Nat.eq_zero_or_pos items.length with h0 | h0
    · exact Or.inr (Or.inr h0)
    · exact Or.inl h0
  · intro hcon
    exact absurd (show (false : Bool) = true from hcon) (by simp)
  · rw [hfin]
    omega
  · intro h1
    rw [hfin] at h1
    exact absurd h1 (by omega)
  · intro wid wslot all sl hmem
    rw [hlog] at hmem
    have h2 := List.mem_singleton.mp hmem
    exact absurd h2 (by simp)
  · intro id sl hmem
    rw [hlog] at hmem
    have h2 := List.mem_singleton.mp hmem
    exact absurd h2 (by simp)

/-- The extended invariant holds initially when every candidate's scoring
inputs resolve through the metadata snapshot or its own fields. -/
theorem invR_init (items : List (ProviderAgent × String))
    (meta : List (String × Option ℚ × Option ℚ))
    (weights : Option PreferenceWeights) (msgs : List WebhookMsg)
    (hres : Resolv (initAgents items) meta) :
    InvR (items.map (fun p => p.1.id)) items.length
      (initConfig items meta weights msgs) := by
  refine ⟨inv_init items meta weights msgs, hres, ?_⟩
  intro hcon
  exact absurd (show (false : Bool) = true from hcon) (by simp)

/-! ## Claim theorems -/

/-- C6 (counterexample): with default weights, scoring the candidate with
slot 09:30, rating 4.5, distance 5 yields 59/75 ≈ 0.7867, not 0.87 — the
gap exceeds 0.08, far beyond any rounding: the time component at 09:30 is
5/6, not 1.0. -/
theorem C6_counterexample :
    calculate_score agC6 0.5 0.3 0.2 none none = some (59 / 75) ∧
      (8 : ℚ) / 100 < 87 / 100 - 59 / 75 := by
  constructor
  · with_unfolding_all decide
  · norm_num

/-- C6 (amended): with the default weights (time 0.5, rating 0.3, distance
0.2), scoring a candidate whose slot is 9:30 AM with rating 4.5 and
distance 5 yields 0.5 × (5/6) + 0.3 × 0.9 + 0.2 × 0.5 = 59/75 ≈ 0.7867 —
the time component maps 09:30 to 5/6, not 1.0. -/
theorem C6_theorem :
    calculate_score agC6 0.5 0.3 0.2 none none =
      some (0.5 * (5 / 6) + 0.3 * (4.5 / 5) + 0.2 * (1 - 5 / 10)) := by
  with_unfolding_all decide

/-- C7 (code bug): `calculate_score` is not total on candidates with an
absent rating or distance.  The pydantic model always has the `rating`
attribute (possibly `None`), so `getattr(provider, "rating", 4.5)` never
falls back to 4.5; a `None` rating (or distance) flows into the arithmetic
and raises `TypeError`, modelled by `none`, instead of substituting the
documented neutral fallbacks. -/
theorem C7_theorem :
    calculate_score ⟨"agent-1", "Dentist A", AgentStatus.booked,
        some "10:00 AM", none, none⟩ 0.5 0.3 0.2 none none = none ∧
    calculate_score ⟨"agent-1", "Dentist A", AgentStatus.booked,
        some "10:00 AM", some 4.5, none⟩ 0.5 0.3 0.2 none none = none := by
  constructor
  · decide
  · with_unfolding_all decide

/-- C8: registry lookups for unknown or removed ids return not-found, and
delivering an external result for an agent id that does not belong to the
race is a no-op: `process_webhook_result` returns the state unchanged,
emits nothing and schedules nothing, and a delivery to a deregistered race
changes neither race state, nor log, nor scheduled tasks. -/
theorem C8_theorem :
    (∀ (swarms : List (String × SwarmState)) (sid : String),
      (∀ p ∈ swarms, p.1 ≠ sid) → get_swarm swarms sid = none) ∧
    (∀ (swarms : List (String × SwarmState)) (sid : String),
      get_swarm (dictPop swarms sid) sid = none) ∧
    (∀ (s : SwarmState) (m : WebhookMsg),
      (∀ a ∈ s.agents, a.id ≠ m.agent_id) →
      process_webhook_result s m = (s, [], 0)) ∧
    (∀ (c : Config) (j : Nat), c.race.registered = false →
      (execAction c (Action.deliver j)).race = c.race ∧
      (execAction c (Action.deliver j)).log = c.log ∧
      (execAction c (Action.deliver j)).pendingEvals = c.pendingEvals) := by
  refine ⟨?_, ?_, ?_, ?_⟩
  · intro swarms sid h
    have hf : List.find? (fun p => p.1 == sid) swarms = none := by
      rw [List.find?_eq_none]
      intro p hp
      simpa using h p hp
    simp [get_swarm, dictGet, hf]
  · intro swarms sid
    have hf : List.find? (fun p => p.1 == sid)
        (List.filter (fun p => p.1 != sid) swarms) = none := by
      rw [List.find?_eq_none]
      intro p hp
      have h2 := (List.mem_filter.mp hp).2
      simp only [bne_iff_ne, ne_eq] at h2
      simpa using h2
    simp [get_swarm, dictGet, dictPop, hf]
  · intro s m h
    have hf : s.agents.find? (fun a => a.id == m.agent_id) = none := by
      rw [List.find?_eq_none]
      intro a ha
      simpa using h a ha
    simp [process_webhook_result, hf]
  · intro c j h
    cases hj : c.inbox[j]? with
    | none => simp [execAction, hj]
    | some m => simp [execAction, hj, h]

/-- C8 (witness): concrete instances — an unknown race id looks up to
not-found, and a delivery for an agent id outside the race leaves the state
untouched. -/
theorem C8_witness :
    get_swarm ([("swarm-1", (initConfig [(agA, "10:00 AM")] [] none []).race)])
        "swarm-2" = none ∧
    process_webhook_result (initConfig [(agA, "10:00 AM")] [] none []).race
        msgBookA2 =
      ((initConfig [(agA, "10:00 AM")] [] none []).race, [], 0) :=
  ⟨C8_theorem.1 _ _ (by decide), C8_theorem.2.2.1 _ _ (by decide)⟩

/-- C10: whenever the results endpoint finds a completed race whose winner
is set, the returned best_result carries the hard-coded score 0.89 and rank
1 — independent of the winner's computed composite score — while the
genuinely computed scores are returned in ranked_shortlist. -/
theorem C10_theorem :
    ∀ (swarms : List (String × SwarmState)) (sid : String) (s : SwarmState)
      (w : ProviderAgent),
      get_swarm swarms sid = some s → s.completed = true → s.winner = some w →
      (get_results swarms sid).best_result =
          some ⟨w.name, w.slotTime, 30, 0.89, 1⟩ ∧
        (get_results swarms sid).ranked_shortlist = s.ranked_shortlist ∧
        (get_results swarms sid).status = "completed" := by
  intro swarms sid s w hfind hc hw
  simp [get_results, hfind, hc, hw, BestResult.mk.injEq]

/-- C10 (witness): a concrete registry holding a completed race with winner
agA returns best_result with score 0.89 and rank 1. -/
theorem C10_witness :
    (get_results [("swarm-1", c10State)] "swarm-1").best_result =
      some ⟨agA.name, agA.slotTime, 30, 0.89, 1⟩ ∧
    (get_results [("swarm-1", c10State)] "swarm-1").ranked_shortlist =
      c10State.ranked_shortlist ∧
    (get_results [("swarm-1", c10State)] "swarm-1").status = "completed" :=
  C10_theorem [("swarm-1", c10State)] "swarm-1" c10State agA rfl rfl rfl

/-- C1 (counterexample): a complete one-candidate race (N = 1) in which the
candidate's terminal transition is delivered both externally (webhook) and
by its internal worker: the completion counter ends at 2 ≠ N, refuting that
it reaches exactly N under every interleaving of internal and external
terminal transitions. -/
theorem C1_counterexample :
    cexC1Run.race.agents.length = 1 ∧ completeRun cexC1Run = true ∧
      cexC1Run.race.completed_count = 2 := by
  with_unfolding_all decide

/-- C2 (counterexample): candidate a1's proposed slot 9:00 AM is before the
09:30 floor, yet in this complete race its terminal state is `cancelled`
(superseded), not `rejected` (declined): the race completed before a1's
resolution stage, so the early proposal is not unconditionally declined. -/
theorem C2_counterexample :
    parse_time "9:00 AM" < parse_time MIN_VALID_TIME ∧
    completeRun cexC2Run = true ∧
    cexC2Run.race.agents.find? (fun a => a.id == "a1") =
      some ⟨"a1", "Dentist A", AgentStatus.cancelled, some "9:00 AM",
        some 4, some 2⟩ := by
  with_unfolding_all decide

/-- C9 (counterexample): in this complete race, candidate a1's `calling`
state was published, the completion flag was then set while a1's worker was
mid-stage, and a1's worker returned at the stage-2 check without ever
emitting a terminal-state event: no terminal event for a1 appears in the
log, refuting that terminal events are never skipped for candidates whose
earlier states were observed. -/
theorem C9_counterexample :
    completeRun cexC9Run = true ∧
    cexC9Run.race.completed = true ∧
    SwarmEvent.update "a1" AgentStatus.calling none ∈ cexC9Run.log ∧
    (cexC9Run.log.filter (isTerminalEventFor "a1")).length = 0 := by
  with_unfolding_all decide


/-! ## Helper lemmas for the descending-score sort -/

theorem mergeSortLE_trans (a b c : ProviderAgent × ℚ)
    (h1 : decide (b.2 ≤ a.2) = true) (h2 : decide (c.2 ≤ b.2) = true) :
    decide (c.2 ≤ a.2) = true := by
  simp only [decide_eq_true_eq] at h1 h2 ⊢
  exact le_trans h2 h1

theorem mergeSortLE_total (a b : ProviderAgent × ℚ) :
    (decide (b.2 ≤ a.2) || decide (a.2 ≤ b.2)) = true := by
  rcases le_total b.2 a.2 with h | h <;> simp [h]

/-- C1 (amended): in every race, the final event is emitted at most once,
and exactly once as soon as the completion flag is set (so the arbitration
body runs effectively once); in every complete run the flag is set and the
counter has reached AT LEAST the candidate count N — it can exceed N when a
candidate's terminal transition is delivered both externally and
internally, so "exactly N" fails (see the counterexample). -/
theorem C1_theorem (items : List (ProviderAgent × String))
    (meta : List (String × Option ℚ × Option ℚ))
    (weights : Option PreferenceWeights) (msgs : List WebhookMsg)
    (acts : List Action)
    (hnd : (items.map (fun p => p.1.id)).Nodup)
    (hres : Resolv (initAgents items) meta)
    (hN : 1 ≤ items.length) :
    countFinalEvents (run (initConfig items meta weights msgs) acts).log ≤ 1 ∧
    ((run (initConfig items meta weights msgs) acts).race.completed = true ↔
      countFinalEvents (run (initConfig items meta weights msgs) acts).log = 1) ∧
    (completeRun (run (initConfig items meta weights msgs) acts) = true →
      countFinalEvents (run (initConfig items meta weights msgs) acts).log = 1 ∧
      (run (initConfig items meta weights msgs) acts).race.completed = true ∧
      items.length ≤
        (run (initConfig items meta weights msgs) acts).race.completed_count) := by
  have hI : InvR (items.map (fun p => p.1.id)) items.length
      (run (initConfig items meta weights msgs) acts) :=
    invR_run _ _ hnd acts _ (invR_init items meta weights msgs hres)
  refine ⟨hI.base.final_le,
    ⟨hI.comp_iff, fun h1 => hI.base.final_imp (by omega)⟩, ?_⟩
  intro hdone
  unfold completeRun at hdone
  rw [Bool.and_eq_true] at hdone
  have hpend0 : (run (initConfig items meta weights msgs) acts).pendingEvals = 0 := by
    simpa using hdone.2
  have hwlen : (run (initConfig items meta weights msgs) acts).workers.length =
      items.length := by
    have h2 := congrArg List.length hI.base.wids_eq
    rw [List.length_map, List.length_map] at h2
    exact h2
  have hdc : doneCount (run (initConfig items meta weights msgs) acts).workers =
      items.length := by
    rw [doneCount_all_finished _ hdone.1, hwlen]
  have hcomp : (run (initConfig items meta weights msgs) acts).race.completed = true := by
    by_contra hcon
    rw [Bool.not_eq_true] at hcon
    have h3 := hI.base.count_ge_done hcon
    have h4 := hI.base.count_lt_or_pend hcon
    rw [hdc] at h3
    rcases h4 with h4 | h4 | h4
    · omega
    · omega
    · omega
  exact ⟨hI.comp_iff hcomp, hcomp, hI.base.count_ge_n hcomp⟩

/-- C1 (witness): the one-candidate race run by its three worker stages is
complete, emits exactly one final event, and its counter reaches N = 1. -/
theorem C1_witness :
    countFinalEvents (run (initConfig [(agA, "10:00 AM")]
      [("a1", some 4, some 2)] none [])
      [Action.workerStep 0, Action.workerStep 0, Action.workerStep 0]).log ≤ 1 ∧
    ((run (initConfig [(agA, "10:00 AM")] [("a1", some 4, some 2)] none [])
        [Action.workerStep 0, Action.workerStep 0, Action.workerStep 0]).race.completed =
          true ↔
      countFinalEvents (run (initConfig [(agA, "10:00 AM")]
        [("a1", some 4, some 2)] none [])
        [Action.workerStep 0, Action.workerStep 0, Action.workerStep 0]).log = 1) ∧
    (completeRun (run (initConfig [(agA, "10:00 AM")] [("a1", some 4, some 2)] none [])
        [Action.workerStep 0, Action.workerStep 0, Action.workerStep 0]) = true →
      countFinalEvents (run (initConfig [(agA, "10:00 AM")]
        [("a1", some 4, some 2)] none [])
        [Action.workerStep 0, Action.workerStep 0, Action.workerStep 0]).log = 1 ∧
      (run (initConfig [(agA, "10:00 AM")] [("a1", some 4, some 2)] none [])
        [Action.workerStep 0, Action.workerStep 0, Action.workerStep 0]).race.completed =
          true ∧
      ([(agA, "10:00 AM")] : List (ProviderAgent × String)).length ≤
        (run (initConfig [(agA, "10:00 AM")] [("a1", some 4, some 2)] none [])
          [Action.workerStep 0, Action.workerStep 0, Action.workerStep 0]).race.completed_count) :=
  C1_theorem [(agA, "10:00 AM")] [("a1", some 4, some 2)] none []
    [Action.workerStep 0, Action.workerStep 0, Action.workerStep 0]
    (by decide) (by unfold Resolv; decide) (by decide)

/-- C2 (amended): a candidate is never SECURED below the 09:30 floor — in
every reachable race state each secured candidate's slot parses at or after
the floor — and a stage-3 resolution declines an early slot whenever the
race is still open; but when the completion flag was set first, the
terminal state is `cancelled` (superseded), not `rejected`, so early
proposals are not unconditionally declined (see the counterexample). -/
theorem C2_theorem (items : List (ProviderAgent × String))
    (meta : List (String × Option ℚ × Option ℚ))
    (weights : Option PreferenceWeights) (msgs : List WebhookMsg)
    (acts : List Action)
    (hnd : (items.map (fun p => p.1.id)).Nodup)
    (w : Worker) (s : SwarmState) :
    BookedOk (run (initConfig items meta weights msgs) acts).race.agents ∧
    (s.completed = false → parse_time w.slot < parse_time MIN_VALID_TIME →
      stage3Status w s = AgentStatus.rejected) ∧
    (s.completed = true → stage3Status w s = AgentStatus.cancelled) := by
  refine ⟨(inv_run _ _ hnd acts _ (inv_init items meta weights msgs)).booked_ok,
    ?_, ?_⟩
  · intro hc hlt
    unfold stage3Status
    rw [hc, if_neg (by simp), if_neg (by simpa using Nat.not_le.mpr hlt)]
  · intro hc
    unfold stage3Status
    rw [hc, if_pos rfl]

/-- C2 (witness): in a concrete race no secured candidate sits below the
floor, the open-race stage-3 resolution of a 9:00 AM offer is `rejected`,
and the completed-race resolution of the same offer is `cancelled`. -/
theorem C2_witness :
    BookedOk (run (initConfig [(agA, "9:00 AM")] [] none []) []).race.agents ∧
    stage3Status c2Worker c2Open = AgentStatus.rejected ∧
    stage3Status c2Worker c2Closed = AgentStatus.cancelled :=
  ⟨(C2_theorem [(agA, "9:00 AM")] [] none [] [] (by decide) c2Worker c2Open).1,
   (C2_theorem [(agA, "9:00 AM")] [] none [] [] (by decide) c2Worker c2Open).2.1
     rfl (by decide),
   (C2_theorem [(agA, "9:00 AM")] [] none [] [] (by decide) c2Worker c2Closed).2.2
     rfl⟩

/-- C3: once arbitration selects a winner, no other candidate holds the
secured status: every final snapshot ever emitted names the winner for each
secured candidate it contains; after the arbitration body every secured
agent is the winner, the winner field is set, and each other secured
candidate is demoted with a `cancelled` transition event emitted for it. -/
theorem C3_theorem (items : List (ProviderAgent × String))
    (meta : List (String × Option ℚ × Option ℚ))
    (weights : Option PreferenceWeights) (msgs : List WebhookMsg)
    (acts : List Action)
    (hnd : (items.map (fun p => p.1.id)).Nodup)
    (s : SwarmState) (scored : List (ProviderAgent × ℚ)) (w : ProviderAgent)
    (hnds : (s.agents.map (·.id)).Nodup)
    (hs : arbitrationScored s = some scored)
    (hw : rank_booked_agents s.agents = some w) :
    (∀ wid wslot all sl,
      SwarmEvent.raceCompleted wid wslot all sl ∈
        (run (initConfig items meta weights msgs) acts).log →
      ∀ a ∈ all, a.status = AgentStatus.booked → wid = some a.id) ∧
    (∀ a ∈ (arbitrationBody s).1.agents,
      a.status = AgentStatus.booked → a.id = w.id) ∧
    (arbitrationBody s).1.winner = some w ∧
    (∀ a ∈ s.agents, a.id ≠ w.id → a.status = AgentStatus.booked →
      SwarmEvent.update a.id AgentStatus.cancelled a.slotTime ∈
        (arbitrationBody s).2) := by
  have hI := inv_run _ _ hnd acts _ (inv_init items meta weights msgs)
  rw [arbitrationBody_win s scored w hs hw hnds]
  refine ⟨hI.snapshot_ok, ?_, rfl, ?_⟩
  · intro a ha hst
    exact map_demoteF_booked w.id s.agents a ha hst
  · intro a ha hne hst
    have hdc : demoteCond w.id a = true := by
      unfold demoteCond
      rw [Bool.and_eq_true]
      exact ⟨by simpa using hne, by simp [hst]⟩
    refine List.mem_append_left _ (List.mem_append_left _ ?_)
    exact List.mem_map_of_mem _ (List.mem_filter.mpr ⟨ha, hdc⟩)

/-- C3 (witness): arbitration of the one-secured-candidate race selects it
as winner, and every secured agent in its result is the winner. -/
theorem C3_witness :
    (∀ wid wslot all sl,
      SwarmEvent.raceCompleted wid wslot all sl ∈
        (run (initConfig [(agA, "10:00 AM")] [("a1", some 4, some 2)] none []) []).log →
      ∀ a ∈ all, a.status = AgentStatus.booked → wid = some a.id) ∧
    (∀ a ∈ (arbitrationBody c3State).1.agents,
      a.status = AgentStatus.booked → a.id = c3Agent.id) ∧
    (arbitrationBody c3State).1.winner = some c3Agent ∧
    (∀ a ∈ c3State.agents, a.id ≠ c3Agent.id → a.status = AgentStatus.booked →
      SwarmEvent.update a.id AgentStatus.cancelled a.slotTime ∈
        (arbitrationBody c3State).2) :=
  C3_theorem [(agA, "10:00 AM")] [("a1", some 4, some 2)] none [] []
    (by decide) c3State [(c3Agent, 71 / 90)] c3Agent (by decide)
    (by with_unfolding_all decide) (by with_unfolding_all decide)

/-- C4: the winner is the secured candidate whose slot time (minutes since
midnight) is minimal, first in original order on ties and independent of
composite score; when no candidate is secured, the candidate filter is
empty, the winner field is left unchanged and the only emitted event is the
final one — no winner event and no demotion. -/
theorem C4_theorem (agents : List ProviderAgent) (w : ProviderAgent)
    (s : SwarmState) (scored : List (ProviderAgent × ℚ))
    (hw : rank_booked_agents agents = some w)
    (hs : arbitrationScored s = some scored)
    (hwn : rank_booked_agents s.agents = none) :
    (w ∈ agents.filter isBookedWithSlot ∧
     (∀ y ∈ agents.filter isBookedWithSlot,
        parse_time (w.slotTime.getD "") ≤ parse_time (y.slotTime.getD "")) ∧
     ∃ l₁ l₂, agents.filter isBookedWithSlot = l₁ ++ w :: l₂ ∧
       ∀ y ∈ l₁, parse_time (w.slotTime.getD "") < parse_time (y.slotTime.getD "")) ∧
    s.agents.filter isBookedWithSlot = [] ∧
    (arbitrationBody s).1.winner = s.winner ∧
    (arbitrationBody s).2 =
      [SwarmEvent.raceCompleted (s.winner.map (·.id)) (s.winner.bind (·.slotTime))
        s.agents
        (scored.enum.map (fun q => mkShortlistRow s.provider_metadata q.1 q.2))] := by
  unfold rank_booked_agents at hw hwn
  obtain ⟨hmem, hmin, l₁, l₂, hsplit, hlt⟩ := pyMinBy_spec _ _ w hw
  have hemp : s.agents.filter isBookedWithSlot = [] :=
    (pyMinBy_eq_none_iff _ _).mp hwn
  have hwn2 : rank_booked_agents s.agents = none := by
    unfold rank_booked_agents
    exact hwn
  refine ⟨⟨hmem, hmin, l₁, l₂, hsplit, hlt⟩, hemp, ?_, ?_⟩
  · rw [arbitrationBody_nowin s scored hs hwn2]
  · rw [arbitrationBody_nowin s scored hs hwn2]

/-- C4 (witness): in the shortlist scenario x2 (9:45 AM) is selected over
the higher-rated 10:00 AM candidates; in the no-secured race the winner is
unchanged and only the final event is emitted. -/
theorem C4_witness :
    (x2 ∈ c5Agents.filter isBookedWithSlot ∧
     (∀ y ∈ c5Agents.filter isBookedWithSlot,
        parse_time (x2.slotTime.getD "") ≤ parse_time (y.slotTime.getD "")) ∧
     ∃ l₁ l₂, c5Agents.filter isBookedWithSlot = l₁ ++ x2 :: l₂ ∧
       ∀ y ∈ l₁, parse_time (x2.slotTime.getD "") < parse_time (y.slotTime.getD "")) ∧
    c4NoWin.agents.filter isBookedWithSlot = [] ∧
    (arbitrationBody c4NoWin).1.winner = c4NoWin.winner ∧
    (arbitrationBody c4NoWin).2 =
      [SwarmEvent.raceCompleted (c4NoWin.winner.map (·.id))
        (c4NoWin.winner.bind (·.slotTime)) c4NoWin.agents
        (([] : List (ProviderAgent × ℚ)).enum.map
          (fun q => mkShortlistRow c4NoWin.provider_metadata q.1 q.2))] :=
  C4_theorem c5Agents x2 c4NoWin [] (by decide) (by decide) (by decide)

/-- C5: the sorted scored list at arbitration pairs exactly the secured
candidates with their composite scores, is ordered non-increasing by score
with ties in original insertion order, and rank `i + 1` with the rounded
score is assigned to the `i`-th row of the shortlist. -/
theorem C5_theorem (agents : List ProviderAgent) (tw rw dw : ℚ)
    (meta : List (String × Option ℚ × Option ℚ))
    (scored : List (ProviderAgent × ℚ))
    (hs : rank_booked_agents_scored agents tw rw dw meta = some scored) :
    List.Perm (scored.map Prod.fst) (agents.filter isBookedWithSlot) ∧
    List.Pairwise (fun x y => y.2 ≤ x.2) scored ∧
    (∀ p ∈ scored, calculate_score p.1 tw rw dw (metaRating meta p.1.id)
      (metaDistance meta p.1.id) = some p.2) ∧
    (∀ q : ℚ, List.Sublist ((scored.filter (fun p => p.2 == q)).map Prod.fst)
      (agents.filter isBookedWithSlot)) ∧
    (∀ (i : Nat) (p : ProviderAgent × ℚ), scored[i]? = some p →
      (scored.enum.map (fun q => mkShortlistRow meta q.1 q.2))[i]? =
          some (mkShortlistRow meta i p) ∧
        (mkShortlistRow meta i p).rank = i + 1 ∧
        (mkShortlistRow meta i p).score = round4 p.2 ∧
        (mkShortlistRow meta i p).agentId = p.1.id) := by
  have hrows : ∀ (i : Nat) (p : ProviderAgent × ℚ), scored[i]? = some p →
      (scored.enum.map (fun q => mkShortlistRow meta q.1 q.2))[i]? =
          some (mkShortlistRow meta i p) ∧
        (mkShortlistRow meta i p).rank = i + 1 ∧
        (mkShortlistRow meta i p).score = round4 p.2 ∧
        (mkShortlistRow meta i p).agentId = p.1.id := by
    intro i p hip
    refine ⟨?_, rfl, rfl, rfl⟩
    rw [List.getElem?_map, List.getElem?_enum, hip]
    rfl
  simp only [rank_booked_agents_scored] at hs
  by_cases he : (agents.filter isBookedWithSlot).isEmpty = true
  · rw [if_pos he] at hs
    have hsc : scored = [] := by simpa using hs.symm
    subst hsc
    have hfil : agents.filter isBookedWithSlot = [] := List.isEmpty_iff.mp he
    rw [hfil]
    exact ⟨by simp, by simp, by simp, fun q => by simp, hrows⟩
  · rw [if_neg he] at hs
    obtain ⟨pre, hpre, hms⟩ := Option.map_eq_some'.mp hs
    obtain ⟨hfst, hsc⟩ := mapM_option_map_fst _ _ pre hpre
    have hms' : pre.mergeSort (fun x y => decide (y.2 ≤ x.2)) = scored := hms
    subst hms'
    have hperm : List.Perm (pre.mergeSort (fun x y => decide (y.2 ≤ x.2))) pre :=
      List.mergeSort_perm pre _
    refine ⟨?_, ?_, ?_, ?_, hrows⟩
    · rw [← hfst]
      exact List.Perm.map Prod.fst hperm
    · have hp := List.sorted_mergeSort mergeSortLE_trans mergeSortLE_total pre
      refine List.Pairwise.imp ?_ hp
      intro a b hab
      simpa using hab
    · intro p hp2
      exact hsc p (hperm.mem_iff.mp hp2)
    · intro q
      have hpw : List.Pairwise (fun a b : ProviderAgent × ℚ => decide (b.2 ≤ a.2) = true)
          (pre.filter (fun p => p.2 == q)) := by
        refine List.pairwise_of_forall_mem_list ?_
        intro a ha b hb
        have ha2 : a.2 = q := by simpa using (List.mem_filter.mp ha).2
        have hb2 : b.2 = q := by simpa using (List.mem_filter.mp hb).2
        simp [ha2, hb2]
      have hsub : List.Sublist (pre.filter (fun p => p.2 == q))
          (pre.mergeSort (fun x y => decide (y.2 ≤ x.2))) :=
        List.sublist_mergeSort mergeSortLE_trans mergeSortLE_total hpw
          (List.filter_sublist pre)
      have hsubf := List.Sublist.filter (fun p : ProviderAgent × ℚ => p.2 == q) hsub
      have hff : (pre.filter (fun p => p.2 == q)).filter (fun p => p.2 == q) =
          pre.filter (fun p => p.2 == q) := by
        rw [List.filter_eq_self]
        intro a ha
        exact (List.mem_filter.mp ha).2
      rw [hff] at hsubf
      have hpf : List.Perm ((pre.mergeSort (fun x y => decide (y.2 ≤ x.2))).filter
          (fun p => p.2 == q)) (pre.filter (fun p => p.2 == q)) :=
        List.Perm.filter _ hperm
      have heqq : (pre.mergeSort (fun x y => decide (y.2 ≤ x.2))).filter
          (fun p => p.2 == q) = pre.filter (fun p => p.2 == q) :=
        (List.Sublist.eq_of_length hsubf hpf.length_eq.symm).symm
      rw [heqq, ← hfst]
      exact List.Sublist.map Prod.fst (List.filter_sublist pre)

set_option maxRecDepth 8000 in
/-- C5 (witness): the shortlist scenario — x3 (declined) is excluded, x2
leads, the x1/x4 score tie keeps insertion order, and rows carry ranks
1, 2, 3 with rounded scores. -/
theorem C5_witness :
    List.Perm (c5Scored.map Prod.fst) (c5Agents.filter isBookedWithSlot) ∧
    List.Pairwise (fun x y => y.2 ≤ x.2) c5Scored ∧
    (∀ p ∈ c5Scored, calculate_score p.1 0.5 0.3 0.2 (metaRating [] p.1.id)
      (metaDistance [] p.1.id) = some p.2) ∧
    (∀ q : ℚ, List.Sublist ((c5Scored.filter (fun p => p.2 == q)).map Prod.fst)
      (c5Agents.filter isBookedWithSlot)) ∧
    (∀ (i : Nat) (p : ProviderAgent × ℚ), c5Scored[i]? = some p →
      (c5Scored.enum.map (fun q => mkShortlistRow [] q.1 q.2))[i]? =
          some (mkShortlistRow [] i p) ∧
        (mkShortlistRow [] i p).rank = i + 1 ∧
        (mkShortlistRow [] i p).score = round4 p.2 ∧
        (mkShortlistRow [] i p).agentId = p.1.id) :=
  C5_theorem c5Agents 0.5 0.3 0.2 [] c5Scored (by with_unfolding_all decide)

/-- C9 (amended): in every COMPLETE run, a candidate observed negotiating
does get a terminal-state event in the log; but while the race is still
running a worker that saw the completion flag at its stage-1 or stage-2
check returns silently, so a candidate observed only in the `calling` state
can be dropped without any terminal event (see the counterexample). -/
theorem C9_theorem (items : List (ProviderAgent × String))
    (meta : List (String × Option ℚ × Option ℚ))
    (weights : Option PreferenceWeights) (msgs : List WebhookMsg)
    (acts : List Action)
    (hnd : (items.map (fun p => p.1.id)).Nodup)
    (hdone : completeRun (run (initConfig items meta weights msgs) acts) = true)
    (id : String) (sl : Option String)
    (hmem : SwarmEvent.update id AgentStatus.negotiating sl ∈
      (run (initConfig items meta weights msgs) acts).log) :
    TerminalInLog id (run (initConfig items meta weights msgs) acts).log := by
  have hI := inv_run _ _ hnd acts _ (inv_init items meta weights msgs)
  obtain ⟨j, hj, hid, hdisj⟩ := hI.neg_term id sl hmem
  rcases hdisj with hdisj | hdisj
  · exfalso
    unfold completeRun at hdone
    rw [Bool.and_eq_true] at hdone
    have hall := List.all_eq_true.mp hdone.1
    have h3 := hall _ (List.get_mem _ j hj)
    rw [hdisj] at h3
    exact absurd h3 (by decide)
  · exact hdisj

/-- C9 (witness): in the complete one-candidate race the negotiating
observation of a1 is followed by a terminal event for a1 in the log. -/
theorem C9_witness :
    TerminalInLog "a1" (run (initConfig [(agA, "10:00 AM")]
      [("a1", some 4, some 2)] none [])
      [Action.workerStep 0, Action.workerStep 0, Action.workerStep 0]).log :=
  C9_theorem [(agA, "10:00 AM")] [("a1", some 4, some 2)] none []
    [Action.workerStep 0, Action.workerStep 0, Action.workerStep 0]
    (by decide) (by with_unfolding_all decide) "a1" (some "10:00 AM")
    (by with_unfolding_all decide)


end CallPilot
